import Mathlib

/-!
The TSS node (`poc/tss`): party manager, security layer, message router, node

A shallow embedding. For the party manager (`party_manager.go`) the Go maps become
association lists, the `*Party` pointers become indices into a list of allocated `Party`
objects, the clock read by `generatePartyID` and the state of the formation
context at the `select` become explicit inputs, and the goroutine launched by
`CreateParty` becomes an entry in a list of pending formation tasks. For the security
layer, the router and the node (`security_layer.go`, `message_router.go`, `node.go`) the
calls into libraries outside the repository are the fields of `Lib`, the random source
is the list of bytes it delivers, and a call returns a value, an error or a panic.
-/

namespace Tss

set_option linter.unusedVariables false

/-! ## Go maps -/

/-- A Go `map[K]V`: a list of entries; the first entry of a key is its value. -/
abbrev GoMap (K V : Type) := List (K × V)

namespace GoMap

variable {K V : Type} [DecidableEq K]

/-- The read `m[k]`, with `none` for an absent key. -/
def lookup : GoMap K V → K → Option V
  | [], _ => none
  | (k', v) :: m, k => if k' = k then some v else lookup m k

/-- The assignment `m[k] = v`. -/
def store : GoMap K V → K → V → GoMap K V
  | [], k, v => [(k, v)]
  | (k', v') :: m, k, v => if k' = k then (k, v) :: m else (k', v') :: store m k v

/-- The builtin `delete(m, k)`. -/
def delete (m : GoMap K V) (k : K) : GoMap K V :=
  m.filter (fun e => decide (e.1 ≠ k))

/-- The builtin `len(m)`. -/
def len (m : GoMap K V) : Nat := m.length

/-- The keys a `for k := range m` visits. -/
def keys (m : GoMap K V) : List K := m.map Prod.fst

/-- The values a `for _, v := range m` visits. -/
def values (m : GoMap K V) : List V := m.map Prod.snd

end GoMap

/-! ## Data model -/

/-- The libp2p `peer.ID`, a string type. -/
abbrev PeerID := String

/-- Go `type PartyStatus int`. -/
abbrev PartyStatus := Int

/-- Go `type TSSOperation int`. -/
abbrev TSSOperation := Int

def MinPartySize : Nat := 3
def MaxPartySize : Nat := 10

def PartyStatusForming : PartyStatus := 0
def PartyStatusReady : PartyStatus := 1
def PartyStatusActive : PartyStatus := 2
def PartyStatusCompleted : PartyStatus := 3
def PartyStatusFailed : PartyStatus := 4

def TSSOperationKeyGen : TSSOperation := 0
def TSSOperationSigning : TSSOperation := 1

/-- Go `struct Party`. -/
structure Party where
  ID : String
  Members : List PeerID
  Threshold : Int
  Status : PartyStatus
  Operation : TSSOperation
  deriving DecidableEq, Repr

/-- Go `struct PartyManager`: the primary table `parties` holds `*Party` values,
here indices into `World.heap`; `peerParties` is the reverse index. The
mutex and the unused message router are left out. -/
structure PartyManager where
  parties : GoMap String Nat
  peerParties : GoMap PeerID (GoMap String Unit)
  deriving DecidableEq, Repr

/-- The manager together with what it shares with its environment: the `Party`
objects allocated so far (a `*Party` is an index into `heap`) and the formation
goroutines that `CreateParty` launched and that have not yet reached their
`select`. -/
structure World where
  heap : List Party
  pm : PartyManager
  forming : List Nat
  deriving DecidableEq, Repr

def NewPartyManager : PartyManager :=
  { parties := [], peerParties := [] }

/-- A process that has just built its manager. -/
def World.init : World :=
  { heap := [], pm := NewPartyManager, forming := [] }

/-- The object a `*Party` points to. -/
def World.deref (w : World) (party : Nat) : Option Party := w.heap[party]?

/-- The assignment `party.Status = status` through a `*Party`. -/
def World.setStatus (w : World) (party : Nat) (status : PartyStatus) : World :=
  match w.heap[party]? with
  | some p => { w with heap := w.heap.set party { p with Status := status } }
  | none => w

/-! ## Operations -/

/-- The ID `fmt.Sprintf("party-%d", time.Now().UnixNano())`, for the clock reading `now`. -/
def generatePartyID (now : Int) : String := "party-" ++ toString now

/-- One round of the loop of `CreateParty` over `members`. -/
def indexMember (partyID : String) (peerParties : GoMap PeerID (GoMap String Unit))
    (member : PeerID) : GoMap PeerID (GoMap String Unit) :=
  let made :=
    match GoMap.lookup peerParties member with
    | none => GoMap.store peerParties member []
    | some _ => peerParties
  GoMap.store made member (GoMap.store ((GoMap.lookup made member).getD []) partyID ())

/-- One round of the loop of `cleanupParty` over `party.Members`; `delete` on the
nil map of an absent member does nothing. -/
def unindexMember (partyID : String) (peerParties : GoMap PeerID (GoMap String Unit))
    (member : PeerID) : GoMap PeerID (GoMap String Unit) :=
  let deleted :=
    match GoMap.lookup peerParties member with
    | none => peerParties
    | some set => GoMap.store peerParties member (GoMap.delete set partyID)
  if GoMap.len ((GoMap.lookup deleted member).getD []) = 0 then
    GoMap.delete deleted member
  else deleted

/-- `PartyManager.CreateParty`, with the clock reading `now` that `generatePartyID`
takes; the result is the returned `*Party` or the error, and the world after. -/
def CreateParty (w : World) (now : Int) (initiator : PeerID) (members : List PeerID)
    (threshold : Int) (operation : TSSOperation) : Except String Nat × World :=
  if members.length < MinPartySize ∨ members.length > MaxPartySize then
    (.error ("invalid party size: " ++ toString members.length ++ " (min: "
      ++ toString MinPartySize ++ ", max: " ++ toString MaxPartySize ++ ")"), w)
  else if threshold < 2 ∨ threshold > (members.length : Int) then
    (.error ("invalid threshold: " ++ toString threshold
      ++ " (must be between 2 and party size)"), w)
  else
    let partyID := generatePartyID now
    let party : Party :=
      { ID := partyID, Members := members, Threshold := threshold,
        Status := PartyStatusForming, Operation := operation }
    let ptr := w.heap.length
    (.ok ptr,
      { heap := w.heap ++ [party],
        pm := { parties := GoMap.store w.pm.parties partyID ptr,
                peerParties := members.foldl (indexMember partyID) w.pm.peerParties },
        forming := w.forming ++ [ptr] })

/-- `PartyManager.cleanupParty`. The table only ever holds pointers to allocated
parties (`tableSound_run`), so the branch of a pointer without an object is never taken. -/
def cleanupParty (w : World) (partyID : String) : World :=
  match GoMap.lookup w.pm.parties partyID with
  | none => w
  | some ptr =>
    match w.deref ptr with
    | none => w
    | some party =>
      { w with pm := { parties := GoMap.delete w.pm.parties partyID,
                       peerParties :=
                         party.Members.foldl (unindexMember partyID) w.pm.peerParties } }

/-- The critical section of `PartyManager.formParty` for the party object `party`;
`done` says whether `formationCtx.Done()` was ready at the `select`. -/
def formParty (w : World) (party : Nat) (done : Bool) : World :=
  if done then
    match w.deref party with
    | none => w
    | some p =>
      if p.Status = PartyStatusForming then
        cleanupParty (w.setStatus party PartyStatusFailed) p.ID
      else w
  else w.setStatus party PartyStatusReady

/-- `PartyManager.GetParty`. -/
def GetParty (w : World) (partyID : String) : Except String Nat :=
  match GoMap.lookup w.pm.parties partyID with
  | none => .error ("party not found: " ++ partyID)
  | some party => .ok party

/-- `PartyManager.GetPeerParties`. -/
def GetPeerParties (w : World) (peerID : PeerID) : List String :=
  GoMap.keys ((GoMap.lookup w.pm.peerParties peerID).getD [])

/-- `PartyManager.UpdatePartyStatus`. -/
def UpdatePartyStatus (w : World) (partyID : String) (status : PartyStatus) :
    Except String Unit × World :=
  match GoMap.lookup w.pm.parties partyID with
  | none => (.error ("party not found: " ++ partyID), w)
  | some party =>
    let w1 := w.setStatus party status
    if status = PartyStatusCompleted ∨ status = PartyStatusFailed then
      (.ok (), cleanupParty w1 partyID)
    else (.ok (), w1)

/-- `PartyManager.GetAllParties`. -/
def GetAllParties (w : World) : List Nat := GoMap.values w.pm.parties

/-! ## Executions -/

/-- What can happen to a manager: a call of `CreateParty` or `UpdatePartyStatus`,
a launched formation task reaching its critical section, or `cleanupParty`. -/
inductive Op where
  | create (now : Int) (initiator : PeerID) (members : List PeerID) (threshold : Int)
      (operation : TSSOperation)
  | update (partyID : String) (status : PartyStatus)
  | form (party : Nat) (done : Bool)
  | cleanup (partyID : String)
  deriving DecidableEq, Repr

/-- One step; a formation task runs once, for a party `CreateParty` launched it for. -/
def step (w : World) : Op → World
  | .create now initiator members threshold operation =>
      (CreateParty w now initiator members threshold operation).2
  | .update partyID status => (UpdatePartyStatus w partyID status).2
  | .form party done =>
      if party ∈ w.forming then
        { formParty w party done with forming := w.forming.erase party }
      else w
  | .cleanup partyID => cleanupParty w partyID

/-- The world after the steps `ops`, in order. -/
def run (w : World) (ops : List Op) : World := ops.foldl step w

/-! ## Predicates of the statements -/

/-- The reverse index `peerParties` lists the party ID `partyID` for `peer`. -/
def Indexed (peerParties : GoMap PeerID (GoMap String Unit)) (peer : PeerID)
    (partyID : String) : Prop :=
  partyID ∈ GoMap.keys ((GoMap.lookup peerParties peer).getD [])

/-- No entry of the reverse index `peerParties` is an empty set. -/
def NoEmptySets (peerParties : GoMap PeerID (GoMap String Unit)) : Prop :=
  ∀ e ∈ peerParties, e.2 ≠ []

/-- Every entry of the primary table points to an allocated party that carries the
entry's key as its ID. -/
def TableSound (w : World) : Prop :=
  ∀ e ∈ w.pm.parties, ∃ p, w.deref e.2 = some p ∧ p.ID = e.1

/-- The edges of the party status state machine of the specification:
`Forming → Ready → Active → {Completed, Failed}` and `Forming → Failed`. -/
def StatusEdge (a b : PartyStatus) : Prop :=
  (a = PartyStatusForming ∧ b = PartyStatusReady) ∨
  (a = PartyStatusReady ∧ b = PartyStatusActive) ∨
  (a = PartyStatusActive ∧ b = PartyStatusCompleted) ∨
  (a = PartyStatusActive ∧ b = PartyStatusFailed) ∨
  (a = PartyStatusForming ∧ b = PartyStatusFailed)

/-- The primary table of `w` holds, under `partyID`, a party that has `peer` among its
members. -/
def Holds (w : World) (partyID : String) (peer : PeerID) : Prop :=
  ∃ party p, GoMap.lookup w.pm.parties partyID = some party ∧ w.deref party = some p ∧
    peer ∈ p.Members

/-- The reverse index lists exactly the memberships of the parties of the primary table. -/
def IndexConsistent (w : World) : Prop :=
  ∀ peer partyID, partyID ∈ GetPeerParties w peer ↔ Holds w partyID peer

/-- Along the steps `ops` from `w`, every successful `CreateParty` allocates an ID that
the primary table does not hold at that moment. -/
def FreshIDs : World → List Op → Prop
  | _, [] => True
  | w, op :: ops =>
    (match op with
      | .create now initiator members threshold operation =>
          (∃ party, (CreateParty w now initiator members threshold operation).1 = .ok party) →
            GoMap.lookup w.pm.parties (generatePartyID now) = none
      | _ => True) ∧
    FreshIDs (step w op) ops

/-- The size and threshold bounds that `CreateParty` checks, read off a party. -/
def WithinBounds (p : Party) : Prop :=
  3 ≤ p.Members.length ∧ p.Members.length ≤ 10 ∧ 2 ≤ p.Threshold ∧
    p.Threshold ≤ (p.Members.length : Int)

/-! ## Bytes, keys and envelopes (`security_layer.go`, `message_router.go`, `node.go`) -/

/-- A byte, as a number. -/
abbrev Byte := Nat

/-- A Go `[]byte`. -/
abbrev Bytes := List Byte

/-- The conversion `[]byte(s)` of an ASCII string literal. -/
def bytesOf (s : String) : Bytes := s.toList.map Char.toNat

/-- The `crypto.PrivKey` a node holds, by its raw bytes. -/
abbrev PrivKey := Bytes

/-- A `crypto.PubKey` interface value: `none` is the nil interface, `some raw` a key. -/
abbrev PubKey := Option Bytes

/-- Go `type MessageType int`. -/
abbrev MessageType := Int

def MessageTypePartyFormation : MessageType := 0
def MessageTypeKeyGeneration : MessageType := 1
def MessageTypeSigning : MessageType := 2

/-- Go `struct Message`, the envelope; the field `Type` is written `Type_`. -/
structure Message where
  Type_ : MessageType
  PartyID : String
  From : PeerID
  To : PeerID
  Payload : Bytes
  deriving DecidableEq, Repr

/-- What a call does: it returns a value, returns an error, or panics. -/
inductive Outcome (α : Type) where
  | ok (value : α)
  | error (err : String)
  | panic (reason : String)
  deriving DecidableEq, Repr

/-- A returned `(value, error)` pair as an outcome. -/
def Outcome.ofExcept {α : Type} : Except String α → Outcome α
  | .ok a => .ok a
  | .error e => .error e

/-- A `cipher.AEAD` as `cipher.NewGCM` returns it, used without additional data:
`Seal nonce plaintext` is what `Seal` appends to its destination. -/
structure AEAD where
  NonceSize : Nat
  Seal : Bytes → Bytes → Bytes
  Open : Bytes → Bytes → Except String Bytes

/-- The functions of the libraries that the node calls and that are not part of the
repository (`hkdf`, `crypto/aes`, `crypto/cipher`, the libp2p keys, `encoding/json`).
`hkdf secret info i` is byte `i` of the HKDF-SHA256 stream with a nil salt, `Verify` is
the method of a key that is not nil. -/
structure Lib where
  hkdf : Bytes → Bytes → Nat → Byte
  aesNewCipher : Bytes → Except String Bytes
  cipherNewGCM : Bytes → Except String AEAD
  Sign : PrivKey → Bytes → Except String Bytes
  Verify : Bytes → Bytes → Bytes → Except String Bool
  IDFromPrivateKey : PrivKey → Except String PeerID
  jsonMarshal : Message → Except String Bytes
  jsonUnmarshal : Bytes → Except String Message

/-- The call `io.ReadFull(reader, buf)` for a buffer of `n` bytes, on a reader that has the
bytes `reader` left to deliver. -/
def ioReadFull (reader : Bytes) (n : Nat) : Except String Bytes :=
  if n ≤ reader.length then .ok (reader.take n)
  else if reader.length = 0 then .error "EOF"
  else .error "unexpected EOF"

/-- The call `bytes.Split(s, sep)` for a separator `sep` of one byte. -/
def bytesSplit (sep : Byte) : Bytes → List Bytes
  | [] => [[]]
  | b :: s =>
    if b = sep then [] :: bytesSplit sep s
    else
      match bytesSplit sep s with
      | [] => [[b]]
      | part :: parts => (b :: part) :: parts

/-! ## Security layer -/

/-- Go `struct SecurityLayer`. -/
structure SecurityLayer where
  privateKey : PrivKey
  deriving DecidableEq, Repr

/-- `SecurityLayer.generateSharedSecret`: the body is `return nil, nil`. -/
def SecurityLayer.generateSharedSecret (sl : SecurityLayer) (peerPubKey : PubKey) :
    Except String Bytes :=
  .ok []

/-- `SecurityLayer.deriveKey`: the first 32 bytes of the HKDF stream, which the stream
always has, so the `panic` is not reached. -/
def SecurityLayer.deriveKey (lib : Lib) (sl : SecurityLayer) (secret info : Bytes) : Bytes :=
  (List.range 32).map (lib.hkdf secret info)

/-- `SecurityLayer.EncryptMessage`; `rand` is what `rand.Reader` has to deliver. -/
def SecurityLayer.EncryptMessage (lib : Lib) (sl : SecurityLayer) (rand : Bytes)
    (msg : Bytes) (recipientPubKey : PubKey) : Except String Bytes :=
  match sl.generateSharedSecret recipientPubKey with
  | .error err => .error ("failed to generate shared secret: " ++ err)
  | .ok sharedSecret =>
    let key := sl.deriveKey lib sharedSecret (bytesOf "encryption")
    match lib.aesNewCipher key with
    | .error err => .error ("failed to create AES cipher: " ++ err)
    | .ok block =>
      match lib.cipherNewGCM block with
      | .error err => .error ("failed to create GCM: " ++ err)
      | .ok gcm =>
        match ioReadFull rand gcm.NonceSize with
        | .error err => .error ("failed to generate nonce: " ++ err)
        | .ok nonce => .ok (nonce ++ gcm.Seal nonce msg)

/-- `SecurityLayer.DecryptMessage`. -/
def SecurityLayer.DecryptMessage (lib : Lib) (sl : SecurityLayer) (ciphertext : Bytes)
    (senderPubKey : PubKey) : Except String Bytes :=
  match sl.generateSharedSecret senderPubKey with
  | .error err => .error ("failed to generate shared secret: " ++ err)
  | .ok sharedSecret =>
    let key := sl.deriveKey lib sharedSecret (bytesOf "encryption")
    match lib.aesNewCipher key with
    | .error err => .error ("failed to create AES cipher: " ++ err)
    | .ok block =>
      match lib.cipherNewGCM block with
      | .error err => .error ("failed to create GCM: " ++ err)
      | .ok gcm =>
        let nonceSize := gcm.NonceSize
        if ciphertext.length < nonceSize then .error "ciphertext too short"
        else
          match gcm.Open (ciphertext.take nonceSize) (ciphertext.drop nonceSize) with
          | .error err => .error ("failed to decrypt: " ++ err)
          | .ok plaintext => .ok plaintext

/-- `SecurityLayer.SignMessage`. -/
def SecurityLayer.SignMessage (lib : Lib) (sl : SecurityLayer) (msg : Bytes) :
    Except String Bytes :=
  lib.Sign sl.privateKey msg

/-- `SecurityLayer.VerifySignature`: the method call `pubKey.Verify` on a nil interface
panics. -/
def SecurityLayer.VerifySignature (lib : Lib) (sl : SecurityLayer) (msg signature : Bytes)
    (pubKey : PubKey) : Outcome Bool :=
  match pubKey with
  | none => .panic "invalid memory address or nil pointer dereference"
  | some key => Outcome.ofExcept (lib.Verify key msg signature)

/-- `SecurityLayer.GetPeerID`. -/
def SecurityLayer.GetPeerID (lib : Lib) (sl : SecurityLayer) : Outcome PeerID :=
  match lib.IDFromPrivateKey sl.privateKey with
  | .error err => .panic err
  | .ok id => .ok id

/-! ## Message router -/

/-- Go `struct MessageRouter`: the identifier of its host and the handler table. -/
structure MessageRouter where
  hostID : PeerID
  handlers : GoMap MessageType (Message → Outcome Unit)

/-- The `pubsub.Message` fields that the router reads. -/
structure PubsubMessage where
  ReceivedFrom : PeerID
  Data : Bytes
  deriving DecidableEq, Repr

/-- `MessageRouter.RegisterHandler`. -/
def MessageRouter.RegisterHandler (mr : MessageRouter) (msgType : MessageType)
    (handler : Message → Outcome Unit) : MessageRouter :=
  { mr with handlers := GoMap.store mr.handlers msgType handler }

/-- `MessageRouter.SendMessage`; `publish` is `mr.topic.Publish`. -/
def MessageRouter.SendMessage (lib : Lib) (publish : Bytes → Except String Unit)
    (msg : Message) : Except String Unit :=
  match lib.jsonMarshal msg with
  | .error err => .error ("failed to marshal message: " ++ err)
  | .ok data => publish data

/-- What one round of the loop of `MessageRouter.handleMessages` does. -/
inductive LoopEvent where
  | receiveError (err : String)
  | ignoredSelf
  | unmarshalError (err : String)
  | noHandler (msgType : MessageType)
  | handled (message : Message) (err : Option String)
  | crashed (message : Message) (reason : String)
  deriving DecidableEq, Repr

/-- One round of the loop of `MessageRouter.handleMessages`; `next` is what
`mr.subscription.Next` returned. Every event but `crashed` is followed by the next round. -/
def MessageRouter.handleMessages (lib : Lib) (mr : MessageRouter)
    (next : Except String PubsubMessage) : LoopEvent :=
  match next with
  | .error err => .receiveError err
  | .ok msg =>
    if msg.ReceivedFrom = mr.hostID then .ignoredSelf
    else
      match lib.jsonUnmarshal msg.Data with
      | .error err => .unmarshalError err
      | .ok message =>
        match GoMap.lookup mr.handlers message.Type_ with
        | none => .noHandler message.Type_
        | some handler =>
          match handler message with
          | .ok _ => .handled message none
          | .error err => .handled message (some err)
          | .panic reason => .crashed message reason

/-! ## Node -/

/-- Go `struct Node`, the parts that the secure envelope uses: `Peerstore` is
`n.host.Peerstore().PubKey`. -/
structure Node where
  Peerstore : PeerID → PubKey
  secLayer : SecurityLayer

/-- `Node.SendSecureMessage`; `send` is `n.msgRouter.SendMessage`. -/
def Node.SendSecureMessage (lib : Lib) (n : Node) (rand : Bytes)
    (send : Message → Except String Unit) (msg : Message) (recipientPubKey : PubKey) :
    Outcome Unit :=
  match lib.jsonMarshal msg with
  | .error err => .error ("failed to marshal message: " ++ err)
  | .ok msgBytes =>
    match n.secLayer.EncryptMessage lib rand msgBytes recipientPubKey with
    | .error err => .error ("failed to encrypt message: " ++ err)
    | .ok encryptedMsg =>
      match n.secLayer.SignMessage lib encryptedMsg with
      | .error err => .error ("failed to sign message: " ++ err)
      | .ok signature =>
        match n.secLayer.GetPeerID lib with
        | .panic reason => .panic reason
        | .error err => .error err
        | .ok id =>
          let secureMsg : Message :=
            { Type_ := msg.Type_, PartyID := msg.PartyID, From := id, To := msg.To,
              Payload := encryptedMsg }
          let secureMsg : Message :=
            { secureMsg with Payload := secureMsg.Payload ++ (bytesOf ":" ++ signature) }
          Outcome.ofExcept (send secureMsg)

/-- `Node.handleSecureMessage`. -/
def Node.handleSecureMessage (lib : Lib) (n : Node) (msg : Message) : Outcome Message :=
  match bytesSplit 58 msg.Payload with
  | [encryptedMsg, signature] =>
    let senderPubKey := n.Peerstore msg.From
    match n.secLayer.VerifySignature lib encryptedMsg signature senderPubKey with
    | .panic reason => .panic reason
    | .error err => .error ("failed to verify signature: " ++ err)
    | .ok valid =>
      if !valid then .error "invalid signature"
      else
        match n.secLayer.DecryptMessage lib encryptedMsg senderPubKey with
        | .error err => .error ("failed to decrypt message: " ++ err)
        | .ok decryptedMsg =>
          match lib.jsonUnmarshal decryptedMsg with
          | .error err => .error ("failed to unmarshal decrypted message: " ++ err)
          | .ok originalMsg => .ok originalMsg
  | _ => .error "invalid secure message format"

/-- `Node.handlePartyFormation`. -/
def Node.handlePartyFormation (lib : Lib) (n : Node) (msg : Message) : Outcome Unit :=
  match n.handleSecureMessage lib msg with
  | .panic reason => .panic reason
  | .error err => .error ("failed to handle secure message: " ++ err)
  | .ok _ => .ok ()

/-- A call of a sub-component that `Node.Start` or `Node.Stop` makes. -/
inductive LifecycleCall where
  | discoveryStart
  | msgRouterStart
  | goHandleDiscoveredPeers
  | discoveryStop
  | msgRouterStop
  deriving DecidableEq, Repr

/-- `Node.Start`: the calls it makes, in order, and what it returns, for the results
`discoveryStart` and `msgRouterStart` of the two sub-calls. -/
def Node.Start (discoveryStart msgRouterStart : Except String Unit) :
    List LifecycleCall × Except String Unit :=
  match discoveryStart with
  | .error err => ([.discoveryStart], .error ("failed to start node discovery: " ++ err))
  | .ok _ =>
    match msgRouterStart with
    | .error err =>
      ([.discoveryStart, .msgRouterStart], .error ("failed to start message router: " ++ err))
    | .ok _ => ([.discoveryStart, .msgRouterStart, .goHandleDiscoveredPeers], .ok ())

/-- `Node.Stop`: the calls it makes, in order, and what it returns, for the results
`discoveryStop` and `msgRouterStop` of the two sub-calls. -/
def Node.Stop (discoveryStop msgRouterStop : Except String Unit) :
    List LifecycleCall × Except String Unit :=
  match discoveryStop with
  | .error err => ([.discoveryStop], .error ("failed to stop node discovery: " ++ err))
  | .ok _ =>
    match msgRouterStop with
    | .error err =>
      ([.discoveryStop, .msgRouterStop], .error ("failed to stop message router: " ++ err))
    | .ok _ => ([.discoveryStop, .msgRouterStop], .ok ())

/-- A stand-in for the libraries, to run the model on concrete inputs: the cipher leaves
the plaintext as it is, a signature is the key followed by the signed bytes, the JSON
encoding of an envelope is its payload, and every key has the identifier `peerA`. -/
def stubLib : Lib where
  hkdf := fun _ _ _ => 0
  aesNewCipher := fun key => .ok key
  cipherNewGCM := fun _ =>
    .ok { NonceSize := 12, Seal := fun _ plaintext => plaintext,
          Open := fun _ ciphertext => .ok ciphertext }
  Sign := fun key msg => .ok (key ++ msg)
  Verify := fun key msg signature => .ok (decide (signature = key ++ msg))
  IDFromPrivateKey := fun _ => .ok "peerA"
  jsonMarshal := fun message => .ok message.Payload
  jsonUnmarshal := fun data =>
    .ok { Type_ := MessageTypePartyFormation, PartyID := "", From := "peerA", To := "",
          Payload := data }

/-- The stand-in `stubLib` with a JSON decoder that reads every envelope as sent by
`sender`. -/
def stubLibFrom (sender : PeerID) : Lib :=
  { stubLib with
    jsonUnmarshal := fun data =>
      .ok { Type_ := MessageTypePartyFormation, PartyID := "", From := sender, To := "",
            Payload := data } }

/-- The reverse index `peerParties` has nothing to restore for `member` and the ID
`partyID`: the member has no entry, or a non-empty set without the ID. -/
def Settled (partyID : String) (peerParties : GoMap PeerID (GoMap String Unit))
    (member : PeerID) : Prop :=
  GoMap.lookup peerParties member = none ∨
  ∃ set, GoMap.lookup peerParties member = some set ∧ set ≠ [] ∧
    GoMap.lookup set partyID = none

/-! ## Facts about Go maps -/

namespace GoMap
variable {K V : Type} [DecidableEq K]

theorem lookup_store_self (m : GoMap K V) (k : K) (v : V) :
    lookup (store m k v) k = some v := by
  induction m with
  | nil => simp [store, lookup]
  | cons e m ih =>
    obtain ⟨k', v'⟩ := e
    by_cases h : k' = k <;> simp [store, lookup, h, ih]

theorem lookup_store_ne (m : GoMap K V) {k k' : K} (v : V) (h : k' ≠ k) :
    lookup (store m k v) k' = lookup m k' := by
  induction m with
  | nil => simp [store, lookup, Ne.symm h]
  | cons e m ih =>
    obtain ⟨k1, v1⟩ := e
    by_cases h1 : k1 = k
    · subst h1
      simp [store, lookup, Ne.symm h]
    · by_cases h2 : k1 = k'
      · simp [store, lookup, h1, h2, h]
      · simp [store, lookup, h1, h2, ih]

theorem lookup_store (m : GoMap K V) (k k' : K) (v : V) :
    lookup (store m k v) k' = if k' = k then some v else lookup m k' := by
  by_cases h : k' = k
  · subst h; simp [lookup_store_self]
  · simp [h, lookup_store_ne m v h]

theorem lookup_delete_self (m : GoMap K V) (k : K) : lookup (delete m k) k = none := by
  induction m with
  | nil => simp [delete, lookup]
  | cons e m ih =>
    obtain ⟨k1, v1⟩ := e
    by_cases h1 : k1 = k
    · simpa [delete, List.filter_cons, h1] using ih
    · simpa [delete, List.filter_cons, h1, lookup] using ih

theorem lookup_delete_ne (m : GoMap K V) {k k' : K} (h : k' ≠ k) :
    lookup (delete m k) k' = lookup m k' := by
  induction m with
  | nil => simp [delete, lookup]
  | cons e m ih =>
    obtain ⟨k1, v1⟩ := e
    by_cases h1 : k1 = k
    · subst h1
      simpa [delete, List.filter_cons, lookup, Ne.symm h] using ih
    · by_cases h2 : k1 = k'
      · simp [delete, List.filter_cons, h1, lookup, h2, h]
      · simpa [delete, List.filter_cons, h1, lookup, h2] using ih

theorem lookup_delete (m : GoMap K V) (k k' : K) :
    lookup (delete m k) k' = if k' = k then none else lookup m k' := by
  by_cases h : k' = k
  · subst h; simp [lookup_delete_self]
  · simp [h, lookup_delete_ne m h]

theorem mem_keys_iff (m : GoMap K V) (k : K) : k ∈ keys m ↔ lookup m k ≠ none := by
  induction m with
  | nil => simp [keys, lookup]
  | cons e m ih =>
    obtain ⟨k1, v1⟩ := e
    by_cases h1 : k1 = k
    · simp [keys, lookup, h1]
    · have : ¬ k = k1 := fun h => h1 h.symm
      simpa [keys, lookup, h1, this] using ih

theorem mem_values_of_lookup (m : GoMap K V) (k : K) (v : V) (h : lookup m k = some v) :
    v ∈ values m := by
  induction m with
  | nil => simp [lookup] at h
  | cons e m ih =>
    obtain ⟨k1, v1⟩ := e
    by_cases h1 : k1 = k
    · simp [lookup, h1] at h
      simp [values, h]
    · simp [lookup, h1] at h
      have := ih h
      simp [values] at this ⊢
      exact Or.inr this

end GoMap

/-! ## The reverse index -/

theorem lookup_indexMember (partyID : String) (pp : GoMap PeerID (GoMap String Unit))
    (member peer : PeerID) :
    GoMap.lookup (indexMember partyID pp member) peer =
      if peer = member then
        some (GoMap.store ((GoMap.lookup pp member).getD []) partyID ())
      else GoMap.lookup pp peer := by
  unfold indexMember
  cases h : GoMap.lookup pp member with
  | none =>
    by_cases hp : peer = member
    · subst hp; simp [GoMap.lookup_store]
    · simp [GoMap.lookup_store, hp]
  | some set =>
    by_cases hp : peer = member
    · subst hp; simp [GoMap.lookup_store, h]
    · simp [GoMap.lookup_store, hp]

theorem indexed_indexMember (partyID : String) (pp : GoMap PeerID (GoMap String Unit))
    (member peer : PeerID) (x : String) :
    Indexed (indexMember partyID pp member) peer x ↔
      (peer = member ∧ x = partyID) ∨ Indexed pp peer x := by
  unfold Indexed
  rw [lookup_indexMember]
  by_cases hp : peer = member
  · subst hp
    by_cases hx : x = partyID
    · subst hx; simp [GoMap.mem_keys_iff, GoMap.lookup_store]
    · simp [GoMap.mem_keys_iff, GoMap.lookup_store, hx]
  · simp [hp]

theorem indexed_foldl_indexMember (partyID : String) (members : List PeerID)
    (pp : GoMap PeerID (GoMap String Unit)) (peer : PeerID) (x : String) :
    Indexed (members.foldl (indexMember partyID) pp) peer x ↔
      (peer ∈ members ∧ x = partyID) ∨ Indexed pp peer x := by
  induction members generalizing pp with
  | nil => simp
  | cons m ms ih =>
    rw [List.foldl_cons, ih, indexed_indexMember]
    simp only [List.mem_cons]
    tauto

theorem lookup_unindexMember (partyID : String) (pp : GoMap PeerID (GoMap String Unit))
    (member peer : PeerID) (hp : peer ≠ member) :
    GoMap.lookup (unindexMember partyID pp member) peer = GoMap.lookup pp peer := by
  unfold unindexMember
  cases h : GoMap.lookup pp member with
  | none => simp only []; split <;> simp [GoMap.lookup_delete, hp]
  | some set => simp only []; split <;> simp [GoMap.lookup_delete, GoMap.lookup_store, hp]

theorem indexed_unindexMember (partyID : String) (pp : GoMap PeerID (GoMap String Unit))
    (member peer : PeerID) (x : String) :
    Indexed (unindexMember partyID pp member) peer x ↔
      Indexed pp peer x ∧ ¬ (peer = member ∧ x = partyID) := by
  by_cases hp : peer = member
  · subst hp
    unfold Indexed unindexMember
    cases h : GoMap.lookup pp peer with
    | none => simp [GoMap.len, h, GoMap.lookup_delete, GoMap.keys]
    | some set =>
      simp only [GoMap.lookup_store_self, Option.getD_some]
      split
      · rename_i hlen
        have hnil : GoMap.delete set partyID = [] := List.length_eq_zero.mp hlen
        have hx : GoMap.lookup (GoMap.delete set partyID) x = none := by simp [hnil, GoMap.lookup]
        rw [GoMap.lookup_delete] at hx
        by_cases hxe : x = partyID
        · simp [GoMap.lookup_delete, GoMap.keys, hxe]
        · simp only [hxe, if_false] at hx
          simp [GoMap.lookup_delete, GoMap.mem_keys_iff, hx, GoMap.lookup]
      · by_cases hxe : x = partyID
        · simp [GoMap.lookup_store, GoMap.mem_keys_iff, GoMap.lookup_delete, hxe]
        · simp [GoMap.lookup_store, GoMap.mem_keys_iff, GoMap.lookup_delete, hxe]
  · unfold Indexed
    rw [lookup_unindexMember _ _ _ _ hp]
    simp [hp]

theorem indexed_foldl_unindexMember (partyID : String) (members : List PeerID)
    (pp : GoMap PeerID (GoMap String Unit)) (peer : PeerID) (x : String) :
    Indexed (members.foldl (unindexMember partyID) pp) peer x ↔
      Indexed pp peer x ∧ ¬ (peer ∈ members ∧ x = partyID) := by
  induction members generalizing pp with
  | nil => simp
  | cons m ms ih =>
    rw [List.foldl_cons, ih, indexed_unindexMember]
    simp only [List.mem_cons]
    tauto

theorem mem_GetPeerParties (w : World) (peer : PeerID) (x : String) :
    x ∈ GetPeerParties w peer ↔ Indexed w.pm.peerParties peer x := Iff.rfl

/-! ## Creating a party -/

theorem CreateParty_of_valid (w : World) (now : Int) (initiator : PeerID)
    (members : List PeerID) (threshold : Int) (operation : TSSOperation)
    (h : 3 ≤ members.length ∧ members.length ≤ 10 ∧ 2 ≤ threshold ∧
      threshold ≤ (members.length : Int)) :
    CreateParty w now initiator members threshold operation =
      (.ok w.heap.length,
        { heap := w.heap ++ [{ ID := generatePartyID now, Members := members,
                               Threshold := threshold, Status := PartyStatusForming,
                               Operation := operation }],
          pm := { parties := GoMap.store w.pm.parties (generatePartyID now) w.heap.length,
                  peerParties :=
                    members.foldl (indexMember (generatePartyID now)) w.pm.peerParties },
          forming := w.forming ++ [w.heap.length] }) := by
  obtain ⟨h1, h2, h3, h4⟩ := h
  have a : ¬ (members.length < MinPartySize ∨ members.length > MaxPartySize) := by
    simp only [MinPartySize, MaxPartySize]; omega
  have b : ¬ (threshold < 2 ∨ threshold > (members.length : Int)) := by omega
  simp only [CreateParty, a, b, if_false]

theorem CreateParty_of_invalid (w : World) (now : Int) (initiator : PeerID)
    (members : List PeerID) (threshold : Int) (operation : TSSOperation)
    (h : ¬ (3 ≤ members.length ∧ members.length ≤ 10 ∧ 2 ≤ threshold ∧
      threshold ≤ (members.length : Int))) :
    ∃ e, CreateParty w now initiator members threshold operation = (.error e, w) := by
  unfold CreateParty
  by_cases a : members.length < MinPartySize ∨ members.length > MaxPartySize
  · simp only [a, if_true]; exact ⟨_, rfl⟩
  · by_cases b : threshold < 2 ∨ threshold > (members.length : Int)
    · simp only [a, b, if_true, if_false]; exact ⟨_, rfl⟩
    · exfalso
      apply h
      simp only [MinPartySize, MaxPartySize] at a
      omega

/-- C1: `CreateParty` returns a party, whose Status is `Forming`, exactly when the
member list has between 3 and 10 entries and the threshold is between 2 and the
number of members; exactly in the other cases it returns an error (and so no party). -/
theorem CreateParty_succeeds_iff (w : World) (now : Int) (initiator : PeerID)
    (members : List PeerID) (threshold : Int) (operation : TSSOperation) :
    ((∃ party, (CreateParty w now initiator members threshold operation).1 = .ok party ∧
        ((CreateParty w now initiator members threshold operation).2.deref party).map
          Party.Status = some PartyStatusForming) ↔
      (3 ≤ members.length ∧ members.length ≤ 10 ∧ 2 ≤ threshold ∧
        threshold ≤ (members.length : Int))) ∧
    ((∃ e, (CreateParty w now initiator members threshold operation).1 = .error e) ↔
      ¬ (3 ≤ members.length ∧ members.length ≤ 10 ∧ 2 ≤ threshold ∧
        threshold ≤ (members.length : Int))) := by
  by_cases h : 3 ≤ members.length ∧ members.length ≤ 10 ∧ 2 ≤ threshold ∧
      threshold ≤ (members.length : Int)
  · rw [CreateParty_of_valid w now initiator members threshold operation h]
    refine ⟨⟨fun _ => h, fun _ => ⟨w.heap.length, rfl, ?_⟩⟩, ⟨?_, fun hn => absurd h hn⟩⟩
    · simp [World.deref]
    · rintro ⟨e, he⟩
      cases he
  · obtain ⟨e, he⟩ := CreateParty_of_invalid w now initiator members threshold operation h
    rw [he]
    refine ⟨⟨?_, fun hv => absurd hv h⟩, ⟨fun _ => h, fun _ => ⟨e, rfl⟩⟩⟩
    rintro ⟨party, hp, _⟩
    cases hp

/-- C2: when `CreateParty` returns an error nothing has changed: the primary table
and the reverse index are what they were, and so are the results of `GetAllParties`
and of `GetPeerParties` for every peer. -/
theorem CreateParty_error_changes_nothing (w : World) (now : Int) (initiator : PeerID)
    (members : List PeerID) (threshold : Int) (operation : TSSOperation) (e : String)
    (h : (CreateParty w now initiator members threshold operation).1 = .error e) :
    (CreateParty w now initiator members threshold operation).2 = w ∧
    (CreateParty w now initiator members threshold operation).2.pm.parties = w.pm.parties ∧
    (CreateParty w now initiator members threshold operation).2.pm.peerParties
      = w.pm.peerParties ∧
    GetAllParties (CreateParty w now initiator members threshold operation).2
      = GetAllParties w ∧
    ∀ peer, GetPeerParties (CreateParty w now initiator members threshold operation).2 peer
      = GetPeerParties w peer := by
  by_cases hv : 3 ≤ members.length ∧ members.length ≤ 10 ∧ 2 ≤ threshold ∧
      threshold ≤ (members.length : Int)
  · rw [CreateParty_of_valid w now initiator members threshold operation hv] at h
    cases h
  · obtain ⟨e', he⟩ := CreateParty_of_invalid w now initiator members threshold operation hv
    rw [he]
    exact ⟨rfl, rfl, rfl, rfl, fun _ => rfl⟩

/-- The spec's scenario for C2: two members are refused, on a manager that already
holds a party. -/
theorem CreateParty_error_changes_nothing_witness :
    (CreateParty (CreateParty World.init 5 "P0" ["P1", "P2", "P3"] 2 TSSOperationKeyGen).2
        6 "P0" ["P1", "P2"] 2 TSSOperationKeyGen).1
      = .error "invalid party size: 2 (min: 3, max: 10)" ∧
    GetAllParties (CreateParty
        (CreateParty World.init 5 "P0" ["P1", "P2", "P3"] 2 TSSOperationKeyGen).2
        6 "P0" ["P1", "P2"] 2 TSSOperationKeyGen).2 = [0] :=
  ⟨rfl,
   (CreateParty_error_changes_nothing
      (CreateParty World.init 5 "P0" ["P1", "P2", "P3"] 2 TSSOperationKeyGen).2
      6 "P0" ["P1", "P2"] 2 TSSOperationKeyGen
      "invalid party size: 2 (min: 3, max: 10)" rfl).2.2.2.1.trans (by decide)⟩

/-- C3: a successful `CreateParty` returns a party with the given members, threshold
and operation and Status `Forming`; `GetParty` on its ID returns it, `GetAllParties`
contains it and `GetPeerParties` of every member contains its ID. -/
theorem CreateParty_success_registers (w : World) (now : Int) (initiator : PeerID)
    (members : List PeerID) (threshold : Int) (operation : TSSOperation) (party : Nat)
    (h : (CreateParty w now initiator members threshold operation).1 = .ok party) :
    ∃ p, (CreateParty w now initiator members threshold operation).2.deref party = some p ∧
      p.Members = members ∧ p.Threshold = threshold ∧ p.Operation = operation ∧
      p.Status = PartyStatusForming ∧
      GetParty (CreateParty w now initiator members threshold operation).2 p.ID = .ok party ∧
      party ∈ GetAllParties (CreateParty w now initiator members threshold operation).2 ∧
      ∀ m ∈ members,
        p.ID ∈ GetPeerParties (CreateParty w now initiator members threshold operation).2 m := by
  by_cases hv : 3 ≤ members.length ∧ members.length ≤ 10 ∧ 2 ≤ threshold ∧
      threshold ≤ (members.length : Int)
  · rw [CreateParty_of_valid w now initiator members threshold operation hv] at h ⊢
    cases h
    refine ⟨{ ID := generatePartyID now, Members := members, Threshold := threshold,
              Status := PartyStatusForming, Operation := operation },
      by simp [World.deref], rfl, rfl, rfl, rfl, ?_, ?_, ?_⟩
    · simp [GetParty, GoMap.lookup_store_self]
    · exact GoMap.mem_values_of_lookup _ (generatePartyID now) _
        (GoMap.lookup_store_self _ _ _)
    · intro m hm
      rw [mem_GetPeerParties]
      exact (indexed_foldl_indexMember _ _ _ _ _).2 (Or.inl ⟨hm, rfl⟩)
  · obtain ⟨e, he⟩ := CreateParty_of_invalid w now initiator members threshold operation hv
    rw [he] at h
    cases h

/-- The spec's scenario for C3: `P0` creates a key-generation party of `P1`, `P2`,
`P3` with threshold 2. -/
theorem CreateParty_success_registers_witness :
    ∃ p, (CreateParty World.init 5 "P0" ["P1", "P2", "P3"] 2 TSSOperationKeyGen).2.deref 0
        = some p ∧
      p.Members = ["P1", "P2", "P3"] ∧ p.Threshold = 2 ∧ p.Operation = TSSOperationKeyGen ∧
      p.Status = PartyStatusForming ∧
      GetParty (CreateParty World.init 5 "P0" ["P1", "P2", "P3"] 2 TSSOperationKeyGen).2 p.ID
        = .ok 0 ∧
      0 ∈ GetAllParties (CreateParty World.init 5 "P0" ["P1", "P2", "P3"] 2
        TSSOperationKeyGen).2 ∧
      ∀ m ∈ ["P1", "P2", "P3"],
        p.ID ∈ GetPeerParties (CreateParty World.init 5 "P0" ["P1", "P2", "P3"] 2
          TSSOperationKeyGen).2 m :=
  CreateParty_success_registers World.init 5 "P0" ["P1", "P2", "P3"] 2 TSSOperationKeyGen 0 rfl

namespace GoMap
variable {K V : Type} [DecidableEq K]

theorem mem_of_lookup (m : GoMap K V) (k : K) (v : V) (h : lookup m k = some v) :
    (k, v) ∈ m := by
  induction m with
  | nil => simp [lookup] at h
  | cons e m ih =>
    obtain ⟨k1, v1⟩ := e
    by_cases h1 : k1 = k
    · simp [lookup, h1] at h
      simp [h1, h]
    · simp [lookup, h1] at h
      exact List.mem_cons_of_mem _ (ih h)

theorem mem_store (m : GoMap K V) (k : K) (v : V) (e : K × V) (h : e ∈ store m k v) :
    e ∈ m ∨ e = (k, v) := by
  induction m with
  | nil => simpa [store] using h
  | cons e1 m ih =>
    obtain ⟨k1, v1⟩ := e1
    by_cases h1 : k1 = k
    · simp only [store, h1, if_true, List.mem_cons] at h
      rcases h with h | h
      · exact Or.inr h
      · exact Or.inl (List.mem_cons_of_mem _ h)
    · simp only [store, h1, if_false, List.mem_cons] at h
      rcases h with h | h
      · exact Or.inl (h ▸ List.mem_cons_self _ _)
      · rcases ih h with h2 | h2
        · exact Or.inl (List.mem_cons_of_mem _ h2)
        · exact Or.inr h2

theorem mem_delete (m : GoMap K V) (k : K) (e : K × V) (h : e ∈ delete m k) :
    e ∈ m ∧ e.1 ≠ k := by
  simpa [delete, List.mem_filter] using h

theorem store_ne_nil (m : GoMap K V) (k : K) (v : V) : store m k v ≠ [] := by
  cases m with
  | nil => simp [store]
  | cons e m =>
    obtain ⟨k1, v1⟩ := e
    by_cases h1 : k1 = k <;> simp [store, h1]

theorem store_store (m : GoMap K V) (k : K) (v v' : V) :
    store (store m k v) k v' = store m k v' := by
  induction m with
  | nil => simp [store]
  | cons e m ih =>
    obtain ⟨k1, v1⟩ := e
    by_cases h1 : k1 = k <;> simp [store, h1, ih]

end GoMap

/-! ## No empty set in the reverse index -/

theorem indexMember_eq (partyID : String) (pp : GoMap PeerID (GoMap String Unit))
    (member : PeerID) :
    indexMember partyID pp member =
      GoMap.store pp member (GoMap.store ((GoMap.lookup pp member).getD []) partyID ()) := by
  unfold indexMember
  cases hl : GoMap.lookup pp member with
  | none => simp [GoMap.store_store, GoMap.lookup_store_self]
  | some set => simp [hl]

theorem noEmptySets_indexMember (partyID : String) (pp : GoMap PeerID (GoMap String Unit))
    (member : PeerID) (h : NoEmptySets pp) : NoEmptySets (indexMember partyID pp member) := by
  intro e he
  rw [indexMember_eq] at he
  rcases GoMap.mem_store _ _ _ _ he with h1 | h1
  · exact h e h1
  · rw [h1]
    exact GoMap.store_ne_nil _ _ _

theorem noEmptySets_unindexMember (partyID : String) (pp : GoMap PeerID (GoMap String Unit))
    (member : PeerID) (h : NoEmptySets pp) : NoEmptySets (unindexMember partyID pp member) := by
  intro e he
  unfold unindexMember at he
  cases hl : GoMap.lookup pp member with
  | none =>
    simp only [hl, Option.getD_none, GoMap.len, List.length_nil, if_true] at he
    exact h e (GoMap.mem_delete _ _ _ he).1
  | some set =>
    simp only [hl, GoMap.lookup_store_self, Option.getD_some] at he
    split at he
    · obtain ⟨h1, h2⟩ := GoMap.mem_delete _ _ _ he
      rcases GoMap.mem_store _ _ _ _ h1 with h3 | h3
      · exact h e h3
      · exact absurd (by rw [h3]) h2
    · rename_i hlen
      rcases GoMap.mem_store _ _ _ _ he with h3 | h3
      · exact h e h3
      · rw [h3]
        intro hnil
        apply hlen
        simp only [] at hnil
        simp [GoMap.len, hnil]

theorem noEmptySets_foldl_indexMember (partyID : String) (members : List PeerID)
    (pp : GoMap PeerID (GoMap String Unit)) (h : NoEmptySets pp) :
    NoEmptySets (members.foldl (indexMember partyID) pp) := by
  induction members generalizing pp with
  | nil => exact h
  | cons m ms ih => exact ih _ (noEmptySets_indexMember partyID pp m h)

theorem noEmptySets_foldl_unindexMember (partyID : String) (members : List PeerID)
    (pp : GoMap PeerID (GoMap String Unit)) (h : NoEmptySets pp) :
    NoEmptySets (members.foldl (unindexMember partyID) pp) := by
  induction members generalizing pp with
  | nil => exact h
  | cons m ms ih => exact ih _ (noEmptySets_unindexMember partyID pp m h)

/-! ## How the steps change the manager -/

theorem setStatus_pm (w : World) (party : Nat) (status : PartyStatus) :
    (w.setStatus party status).pm = w.pm := by
  unfold World.setStatus
  cases w.heap[party]? <;> rfl

theorem setStatus_forming (w : World) (party : Nat) (status : PartyStatus) :
    (w.setStatus party status).forming = w.forming := by
  unfold World.setStatus
  cases w.heap[party]? <;> rfl

theorem cleanupParty_heap (w : World) (partyID : String) :
    (cleanupParty w partyID).heap = w.heap := by
  unfold cleanupParty
  cases GoMap.lookup w.pm.parties partyID with
  | none => rfl
  | some ptr => simp only []; cases w.deref ptr <;> rfl

theorem cleanupParty_peerParties (w : World) (partyID : String) :
    ∃ members, (cleanupParty w partyID).pm.peerParties =
      List.foldl (unindexMember partyID) w.pm.peerParties members := by
  unfold cleanupParty
  cases GoMap.lookup w.pm.parties partyID with
  | none => exact ⟨[], rfl⟩
  | some ptr =>
    simp only []
    cases w.deref ptr with
    | none => exact ⟨[], rfl⟩
    | some p => exact ⟨p.Members, rfl⟩

/-- Every step leaves the reverse index as it is (an empty list of members), or indexes
a party for a list of members, or unindexes one. -/
theorem step_peerParties (w : World) (op : Op) :
    ∃ partyID members,
      (step w op).pm.peerParties = List.foldl (indexMember partyID) w.pm.peerParties members ∨
      (step w op).pm.peerParties =
        List.foldl (unindexMember partyID) w.pm.peerParties members := by
  cases op with
  | create now initiator members threshold operation =>
    by_cases hv : 3 ≤ members.length ∧ members.length ≤ 10 ∧ 2 ≤ threshold ∧
        threshold ≤ (members.length : Int)
    · exact ⟨generatePartyID now, members, Or.inl (by
        simp only [step, CreateParty_of_valid w now initiator members threshold operation hv])⟩
    · obtain ⟨e, he⟩ := CreateParty_of_invalid w now initiator members threshold operation hv
      exact ⟨"", [], Or.inl (by simp only [step, he, List.foldl_nil])⟩
  | update partyID status =>
    simp only [step, UpdatePartyStatus]
    cases GoMap.lookup w.pm.parties partyID with
    | none => exact ⟨"", [], Or.inl rfl⟩
    | some ptr =>
      simp only []
      split
      · obtain ⟨ms, hms⟩ := cleanupParty_peerParties (w.setStatus ptr status) partyID
        rw [setStatus_pm] at hms
        exact ⟨partyID, ms, Or.inr hms⟩
      · exact ⟨"", [], Or.inl (by simp [setStatus_pm])⟩
  | form party done =>
    simp only [step]
    split
    · simp only [formParty]
      cases done with
      | false => exact ⟨"", [], Or.inl (by simp [setStatus_pm])⟩
      | true =>
        simp only [if_true]
        cases w.deref party with
        | none => exact ⟨"", [], Or.inl rfl⟩
        | some p =>
          simp only []
          split
          · obtain ⟨ms, hms⟩ :=
              cleanupParty_peerParties (w.setStatus party PartyStatusFailed) p.ID
            rw [setStatus_pm] at hms
            exact ⟨p.ID, ms, Or.inr hms⟩
          · exact ⟨"", [], Or.inl rfl⟩
    · exact ⟨"", [], Or.inl rfl⟩
  | cleanup partyID =>
    obtain ⟨ms, hms⟩ := cleanupParty_peerParties w partyID
    exact ⟨partyID, ms, Or.inr hms⟩

theorem noEmptySets_step (w : World) (op : Op) (h : NoEmptySets w.pm.peerParties) :
    NoEmptySets (step w op).pm.peerParties := by
  obtain ⟨partyID, members, hs | hs⟩ := step_peerParties w op
  · rw [hs]; exact noEmptySets_foldl_indexMember _ _ _ h
  · rw [hs]; exact noEmptySets_foldl_unindexMember _ _ _ h

theorem noEmptySets_run (w : World) (ops : List Op) (h : NoEmptySets w.pm.peerParties) :
    NoEmptySets (run w ops).pm.peerParties := by
  induction ops generalizing w with
  | nil => exact h
  | cons op ops ih => exact ih (step w op) (noEmptySets_step w op h)

/-- C5: in every state reached from a new manager by `CreateParty`, `UpdatePartyStatus`,
`cleanupParty` and formation-task steps, a peer that has an entry in the reverse index
has a non-empty set of party IDs. -/
theorem reverse_index_has_no_empty_set (ops : List Op) (peer : PeerID)
    (set : GoMap String Unit)
    (h : GoMap.lookup (run World.init ops).pm.peerParties peer = some set) :
    0 < GoMap.len set ∧ GetPeerParties (run World.init ops) peer ≠ [] := by
  have hne : set ≠ [] :=
    noEmptySets_run World.init ops (by intro e he; cases he) (peer, set)
      (GoMap.mem_of_lookup _ _ _ h)
  constructor
  · exact List.length_pos.mpr hne
  · simp only [GetPeerParties, h, Option.getD_some, GoMap.keys]
    intro hk
    exact hne (List.map_eq_nil_iff.mp hk)

/-- A run for C5 that creates two overlapping parties and completes the first: `P3`,
a member of both, keeps an entry, and it holds the second party only. -/
theorem reverse_index_has_no_empty_set_witness :
    0 < GoMap.len [("party-6", ())] ∧
    GetPeerParties (run World.init
      [.create 5 "P0" ["P1", "P2", "P3"] 2 TSSOperationKeyGen,
       .create 6 "P0" ["P3", "P4", "P5"] 3 TSSOperationSigning,
       .update "party-5" PartyStatusCompleted]) "P3" ≠ [] :=
  reverse_index_has_no_empty_set
    [.create 5 "P0" ["P1", "P2", "P3"] 2 TSSOperationKeyGen,
     .create 6 "P0" ["P3", "P4", "P5"] 3 TSSOperationSigning,
     .update "party-5" PartyStatusCompleted] "P3" [("party-6", ())] (by decide)

/-! ## Updating the status of a party -/

/-- C7: `UpdatePartyStatus` returns an error exactly when the primary table holds no
party under the given ID, whatever the status; and when it returns that error the
primary table, the status of every party and the reverse index are unchanged. -/
theorem UpdatePartyStatus_error_iff (w : World) (partyID : String) (status : PartyStatus) :
    ((∃ e, (UpdatePartyStatus w partyID status).1 = .error e) ↔
      GoMap.lookup w.pm.parties partyID = none) ∧
    ((∃ e, (UpdatePartyStatus w partyID status).1 = .error e) →
      (UpdatePartyStatus w partyID status).2 = w ∧
      (UpdatePartyStatus w partyID status).2.pm.parties = w.pm.parties ∧
      (UpdatePartyStatus w partyID status).2.pm.peerParties = w.pm.peerParties ∧
      ∀ party, ((UpdatePartyStatus w partyID status).2.deref party).map Party.Status
        = (w.deref party).map Party.Status) := by
  unfold UpdatePartyStatus
  cases h : GoMap.lookup w.pm.parties partyID with
  | none =>
    exact ⟨⟨fun _ => rfl, fun _ => ⟨_, rfl⟩⟩, fun _ => ⟨rfl, rfl, rfl, fun _ => rfl⟩⟩
  | some ptr =>
    simp only []
    split
    · refine ⟨⟨?_, fun hn => by cases hn⟩, ?_⟩ <;>
      · rintro ⟨e, he⟩
        cases he
    · refine ⟨⟨?_, fun hn => by cases hn⟩, ?_⟩ <;>
      · rintro ⟨e, he⟩
        cases he

/-- An update of an unknown ID on a manager that holds a `Forming` party: the error is
returned and the party keeps its status. -/
theorem UpdatePartyStatus_error_iff_witness :
    (UpdatePartyStatus (run World.init [.create 5 "P0" ["P1", "P2", "P3"] 2 TSSOperationKeyGen])
        "party-7" PartyStatusCompleted).1 = .error "party not found: party-7" ∧
    ((UpdatePartyStatus (run World.init [.create 5 "P0" ["P1", "P2", "P3"] 2 TSSOperationKeyGen])
        "party-7" PartyStatusCompleted).2.deref 0).map Party.Status
      = some PartyStatusForming :=
  ⟨rfl,
   (((UpdatePartyStatus_error_iff
        (run World.init [.create 5 "P0" ["P1", "P2", "P3"] 2 TSSOperationKeyGen])
        "party-7" PartyStatusCompleted).2 ⟨_, rfl⟩).2.2.2 0).trans (by decide)⟩

/-! ## Pointers of the primary table -/

theorem deref_setStatus (w : World) (party : Nat) (status : PartyStatus) (q : Nat) :
    (w.setStatus party status).deref q =
      (w.deref q).map (fun p => if q = party then { p with Status := status } else p) := by
  unfold World.setStatus World.deref
  cases h : w.heap[party]? with
  | none =>
    by_cases hq : q = party
    · subst hq; simp [h]
    · cases w.heap[q]? <;> simp [hq]
  | some p =>
    simp only [List.getElem?_set]
    by_cases hq : q = party
    · subst hq
      have hlt : q < w.heap.length := (List.getElem?_eq_some.mp h).1
      simp [hlt, h]
    · have : ¬ party = q := fun e => hq e.symm
      cases w.heap[q]? <;> simp [hq, this]

theorem tableSound_setStatus (w : World) (party : Nat) (status : PartyStatus)
    (h : TableSound w) : TableSound (w.setStatus party status) := by
  intro e he
  rw [setStatus_pm] at he
  obtain ⟨p, hp, hid⟩ := h e he
  rw [deref_setStatus, hp]
  by_cases hq : e.2 = party
  · exact ⟨{ p with Status := status }, by simp [hq], hid⟩
  · exact ⟨p, by simp [hq], hid⟩

theorem cleanupParty_parties (w : World) (partyID : String) :
    (cleanupParty w partyID).pm.parties = w.pm.parties ∨
    (cleanupParty w partyID).pm.parties = GoMap.delete w.pm.parties partyID := by
  unfold cleanupParty
  cases GoMap.lookup w.pm.parties partyID with
  | none => exact Or.inl rfl
  | some ptr =>
    simp only []
    cases w.deref ptr with
    | none => exact Or.inl rfl
    | some p => exact Or.inr rfl

theorem tableSound_cleanupParty (w : World) (partyID : String) (h : TableSound w) :
    TableSound (cleanupParty w partyID) := by
  intro e he
  have hd : (cleanupParty w partyID).deref e.2 = w.deref e.2 := by
    simp only [World.deref, cleanupParty_heap]
  rw [hd]
  rcases cleanupParty_parties w partyID with hp | hp
  · rw [hp] at he; exact h e he
  · rw [hp] at he; exact h e (GoMap.mem_delete _ _ _ he).1

theorem tableSound_CreateParty (w : World) (now : Int) (initiator : PeerID)
    (members : List PeerID) (threshold : Int) (operation : TSSOperation)
    (h : TableSound w) :
    TableSound (CreateParty w now initiator members threshold operation).2 := by
  by_cases hv : 3 ≤ members.length ∧ members.length ≤ 10 ∧ 2 ≤ threshold ∧
      threshold ≤ (members.length : Int)
  · rw [CreateParty_of_valid w now initiator members threshold operation hv]
    intro e he
    rcases GoMap.mem_store _ _ _ _ he with h1 | h1
    · obtain ⟨p, hp, hid⟩ := h e h1
      refine ⟨p, ?_, hid⟩
      simp only [World.deref] at hp ⊢
      rw [List.getElem?_append_left (List.getElem?_eq_some.mp hp).1]
      exact hp
    · subst h1
      exact ⟨{ ID := generatePartyID now, Members := members, Threshold := threshold,
               Status := PartyStatusForming, Operation := operation },
        by simp [World.deref], rfl⟩
  · obtain ⟨e, he⟩ := CreateParty_of_invalid w now initiator members threshold operation hv
    rw [he]
    exact h

theorem tableSound_with_forming (w : World) (forming : List Nat) (h : TableSound w) :
    TableSound { w with forming := forming } := h

theorem tableSound_formParty (w : World) (party : Nat) (done : Bool) (h : TableSound w) :
    TableSound (formParty w party done) := by
  unfold formParty
  cases done with
  | false => exact tableSound_setStatus w party _ h
  | true =>
    simp only [if_true]
    cases w.deref party with
    | none => exact h
    | some p =>
      simp only []
      split
      · exact tableSound_cleanupParty _ _ (tableSound_setStatus w party _ h)
      · exact h

theorem tableSound_UpdatePartyStatus (w : World) (partyID : String) (status : PartyStatus)
    (h : TableSound w) : TableSound (UpdatePartyStatus w partyID status).2 := by
  unfold UpdatePartyStatus
  cases GoMap.lookup w.pm.parties partyID with
  | none => exact h
  | some ptr =>
    simp only []
    split
    · exact tableSound_cleanupParty _ _ (tableSound_setStatus w ptr _ h)
    · exact tableSound_setStatus w ptr _ h

theorem tableSound_step (w : World) (op : Op) (h : TableSound w) : TableSound (step w op) := by
  cases op with
  | create now initiator members threshold operation =>
    exact tableSound_CreateParty w now initiator members threshold operation h
  | update partyID status => exact tableSound_UpdatePartyStatus w partyID status h
  | form party done =>
    simp only [step]
    split
    · exact tableSound_with_forming _ _ (tableSound_formParty w party done h)
    · exact h
  | cleanup partyID => exact tableSound_cleanupParty w partyID h

theorem tableSound_run (w : World) (ops : List Op) (h : TableSound w) :
    TableSound (run w ops) := by
  induction ops generalizing w with
  | nil => exact h
  | cons op ops ih => exact ih (step w op) (tableSound_step w op h)

theorem tableSound_init : TableSound World.init := by
  intro e he
  cases he

/-! ## Removal at a terminal status -/

theorem cleanupParty_of_held (w : World) (partyID : String) (ptr : Nat) (p : Party)
    (h1 : GoMap.lookup w.pm.parties partyID = some ptr) (h2 : w.deref ptr = some p) :
    cleanupParty w partyID =
      { w with pm := { parties := GoMap.delete w.pm.parties partyID,
                       peerParties :=
                         p.Members.foldl (unindexMember partyID) w.pm.peerParties } } := by
  simp only [cleanupParty, h1, h2]

theorem not_mem_values_delete (w : World) (hs : TableSound w) (partyID : String)
    (party : Nat) (h : GoMap.lookup w.pm.parties partyID = some party) :
    party ∉ GoMap.values (GoMap.delete w.pm.parties partyID) := by
  intro hm
  obtain ⟨e, he, hev⟩ := List.mem_map.mp hm
  obtain ⟨hin, hne⟩ := GoMap.mem_delete _ _ _ he
  obtain ⟨p1, hp1, hid1⟩ := hs e hin
  obtain ⟨p2, hp2, hid2⟩ := hs (partyID, party) (GoMap.mem_of_lookup _ _ _ h)
  rw [hev] at hp1
  simp only [] at hp2 hid2
  rw [hp1] at hp2
  cases hp2
  exact hne (hid1.symm.trans hid2)

/-- C8: for a party that the primary table holds under `partyID`, in any state reached
from a new manager: `UpdatePartyStatus(partyID, s)` with `s` one of `Completed` and
`Failed` sets the Status and removes the party (`GetParty` fails, `GetAllParties` no
longer contains it, `GetPeerParties` of every former member no longer contains the ID);
with any other `s` the party stays in the primary table with Status `s` and the primary
table and the reverse index are unchanged. -/
theorem UpdatePartyStatus_removes_iff_terminal (ops : List Op) (partyID : String)
    (party : Nat) (status : PartyStatus)
    (h : GoMap.lookup (run World.init ops).pm.parties partyID = some party) :
    ∃ p, (run World.init ops).deref party = some p ∧
      (UpdatePartyStatus (run World.init ops) partyID status).1 = .ok () ∧
      ((UpdatePartyStatus (run World.init ops) partyID status).2.deref party).map Party.Status
        = some status ∧
      ((status = PartyStatusCompleted ∨ status = PartyStatusFailed) →
        (∃ e, GetParty (UpdatePartyStatus (run World.init ops) partyID status).2 partyID
          = .error e) ∧
        party ∉ GetAllParties (UpdatePartyStatus (run World.init ops) partyID status).2 ∧
        ∀ m ∈ p.Members,
          partyID ∉ GetPeerParties (UpdatePartyStatus (run World.init ops) partyID status).2 m) ∧
      (¬ (status = PartyStatusCompleted ∨ status = PartyStatusFailed) →
        GetParty (UpdatePartyStatus (run World.init ops) partyID status).2 partyID
          = .ok party ∧
        party ∈ GetAllParties (UpdatePartyStatus (run World.init ops) partyID status).2 ∧
        (UpdatePartyStatus (run World.init ops) partyID status).2.pm.parties
          = (run World.init ops).pm.parties ∧
        (UpdatePartyStatus (run World.init ops) partyID status).2.pm.peerParties
          = (run World.init ops).pm.peerParties) := by
  have hs : TableSound (run World.init ops) := tableSound_run _ ops tableSound_init
  generalize run World.init ops = w at h hs ⊢
  obtain ⟨p, hp, hid⟩ := hs (partyID, party) (GoMap.mem_of_lookup _ _ _ h)
  simp only [] at hp hid
  have hp1 : (w.setStatus party status).deref party = some { p with Status := status } := by
    rw [deref_setStatus, hp]; simp
  have hl1 : GoMap.lookup (w.setStatus party status).pm.parties partyID = some party := by
    rw [setStatus_pm]; exact h
  refine ⟨p, hp, ?_⟩
  by_cases ht : status = PartyStatusCompleted ∨ status = PartyStatusFailed
  · have hu : UpdatePartyStatus w partyID status =
        (.ok (), cleanupParty (w.setStatus party status) partyID) := by
      simp only [UpdatePartyStatus, h, ht, if_true]
    rw [hu, cleanupParty_of_held _ partyID party _ hl1 hp1]
    refine ⟨rfl, ?_, fun _ => ⟨?_, ?_, ?_⟩, fun hn => absurd ht hn⟩
    · have hd : World.deref { w.setStatus party status with
          pm := { parties := GoMap.delete (w.setStatus party status).pm.parties partyID,
                  peerParties := p.Members.foldl (unindexMember partyID)
                    (w.setStatus party status).pm.peerParties } } party
          = (w.setStatus party status).deref party := rfl
      rw [hd, hp1]; rfl
    · exact ⟨"party not found: " ++ partyID, by simp [GetParty, GoMap.lookup_delete_self]⟩
    · simp only [GetAllParties, setStatus_pm]
      exact not_mem_values_delete w hs partyID party h
    · intro m hm hc
      rw [mem_GetPeerParties] at hc
      exact ((indexed_foldl_unindexMember _ _ _ _ _).1 hc).2 ⟨hm, rfl⟩
  · have hu : UpdatePartyStatus w partyID status = (.ok (), w.setStatus party status) := by
      simp only [UpdatePartyStatus, h, ht, if_false]
    rw [hu]
    refine ⟨rfl, ?_, fun hn => absurd hn ht, fun _ => ⟨?_, ?_, ?_, ?_⟩⟩
    · simp [hp1]
    · simp [GetParty, hl1]
    · exact GoMap.mem_values_of_lookup _ partyID _ hl1
    · simp [setStatus_pm]
    · simp [setStatus_pm]

/-- The spec's scenario for C8: the party of `P1`, `P2`, `P3` is created and formed, and
then completed. -/
theorem UpdatePartyStatus_removes_iff_terminal_witness :
    GetAllParties (UpdatePartyStatus
      (run World.init [.create 5 "P0" ["P1", "P2", "P3"] 2 TSSOperationKeyGen, .form 0 false])
      "party-5" PartyStatusCompleted).2 = [] ∧
    ∃ p, (run World.init [.create 5 "P0" ["P1", "P2", "P3"] 2 TSSOperationKeyGen,
        .form 0 false]).deref 0 = some p ∧
      (UpdatePartyStatus
        (run World.init [.create 5 "P0" ["P1", "P2", "P3"] 2 TSSOperationKeyGen, .form 0 false])
        "party-5" PartyStatusCompleted).1 = .ok () ∧
      ((UpdatePartyStatus
        (run World.init [.create 5 "P0" ["P1", "P2", "P3"] 2 TSSOperationKeyGen, .form 0 false])
        "party-5" PartyStatusCompleted).2.deref 0).map Party.Status
        = some PartyStatusCompleted ∧
      ((PartyStatusCompleted = PartyStatusCompleted ∨
          PartyStatusCompleted = PartyStatusFailed) →
        (∃ e, GetParty (UpdatePartyStatus
          (run World.init [.create 5 "P0" ["P1", "P2", "P3"] 2 TSSOperationKeyGen,
            .form 0 false])
          "party-5" PartyStatusCompleted).2 "party-5" = .error e) ∧
        0 ∉ GetAllParties (UpdatePartyStatus
          (run World.init [.create 5 "P0" ["P1", "P2", "P3"] 2 TSSOperationKeyGen,
            .form 0 false])
          "party-5" PartyStatusCompleted).2 ∧
        ∀ m ∈ p.Members,
          "party-5" ∉ GetPeerParties (UpdatePartyStatus
            (run World.init [.create 5 "P0" ["P1", "P2", "P3"] 2 TSSOperationKeyGen,
              .form 0 false])
            "party-5" PartyStatusCompleted).2 m) ∧
      (¬ (PartyStatusCompleted = PartyStatusCompleted ∨
          PartyStatusCompleted = PartyStatusFailed) →
        GetParty (UpdatePartyStatus
          (run World.init [.create 5 "P0" ["P1", "P2", "P3"] 2 TSSOperationKeyGen,
            .form 0 false])
          "party-5" PartyStatusCompleted).2 "party-5" = .ok 0 ∧
        0 ∈ GetAllParties (UpdatePartyStatus
          (run World.init [.create 5 "P0" ["P1", "P2", "P3"] 2 TSSOperationKeyGen,
            .form 0 false])
          "party-5" PartyStatusCompleted).2 ∧
        (UpdatePartyStatus
          (run World.init [.create 5 "P0" ["P1", "P2", "P3"] 2 TSSOperationKeyGen,
            .form 0 false])
          "party-5" PartyStatusCompleted).2.pm.parties
          = (run World.init [.create 5 "P0" ["P1", "P2", "P3"] 2 TSSOperationKeyGen,
            .form 0 false]).pm.parties ∧
        (UpdatePartyStatus
          (run World.init [.create 5 "P0" ["P1", "P2", "P3"] 2 TSSOperationKeyGen,
            .form 0 false])
          "party-5" PartyStatusCompleted).2.pm.peerParties
          = (run World.init [.create 5 "P0" ["P1", "P2", "P3"] 2 TSSOperationKeyGen,
            .form 0 false]).pm.peerParties) :=
  ⟨by decide,
   UpdatePartyStatus_removes_iff_terminal
    [.create 5 "P0" ["P1", "P2", "P3"] 2 TSSOperationKeyGen, .form 0 false]
    "party-5" 0 PartyStatusCompleted (by decide)⟩

/-! ## Party IDs taken from the clock -/

/-- C6, the code at the failing input: two calls of `CreateParty` that read the same
clock value both succeed and give their two parties the same ID, and the primary table
keeps the second party only. -/
theorem CreateParty_same_clock_same_ID :
    (CreateParty World.init 5 "P0" ["P1", "P2", "P3"] 2 TSSOperationKeyGen).1 = .ok 0 ∧
    (CreateParty (CreateParty World.init 5 "P0" ["P1", "P2", "P3"] 2 TSSOperationKeyGen).2
      5 "P0" ["P4", "P5", "P6"] 2 TSSOperationKeyGen).1 = .ok 1 ∧
    ((CreateParty (CreateParty World.init 5 "P0" ["P1", "P2", "P3"] 2 TSSOperationKeyGen).2
      5 "P0" ["P4", "P5", "P6"] 2 TSSOperationKeyGen).2.deref 0).map Party.ID
      = some "party-5" ∧
    ((CreateParty (CreateParty World.init 5 "P0" ["P1", "P2", "P3"] 2 TSSOperationKeyGen).2
      5 "P0" ["P4", "P5", "P6"] 2 TSSOperationKeyGen).2.deref 1).map Party.ID
      = some "party-5" ∧
    GetAllParties (CreateParty
      (CreateParty World.init 5 "P0" ["P1", "P2", "P3"] 2 TSSOperationKeyGen).2
      5 "P0" ["P4", "P5", "P6"] 2 TSSOperationKeyGen).2 = [1] := by
  refine ⟨rfl, rfl, ?_, ?_, ?_⟩ <;> decide

/-- C4, the code at the failing input: after two calls of `CreateParty` that read the
same clock value, the reverse index of `P1` lists the ID `party-5`, and the party that
the primary table holds under `party-5` has the members `P4`, `P5`, `P6`, not `P1`. -/
theorem reverse_index_stale_after_ID_collision :
    "party-5" ∈ GetPeerParties (run World.init
      [.create 5 "P0" ["P1", "P2", "P3"] 2 TSSOperationKeyGen,
       .create 5 "P0" ["P4", "P5", "P6"] 2 TSSOperationKeyGen]) "P1" ∧
    GetParty (run World.init
      [.create 5 "P0" ["P1", "P2", "P3"] 2 TSSOperationKeyGen,
       .create 5 "P0" ["P4", "P5", "P6"] 2 TSSOperationKeyGen]) "party-5" = .ok 1 ∧
    ((run World.init
      [.create 5 "P0" ["P1", "P2", "P3"] 2 TSSOperationKeyGen,
       .create 5 "P0" ["P4", "P5", "P6"] 2 TSSOperationKeyGen]).deref 1).map Party.Members
      = some ["P4", "P5", "P6"] ∧
    "P1" ∉ ["P4", "P5", "P6"] := by
  refine ⟨?_, rfl, ?_, ?_⟩ <;> decide

/-! ## Status changes -/

/-- C9 as stated fails: on a party that is `Forming`, `UpdatePartyStatus` with `Active`
succeeds and changes the Status from `Forming` to `Active`, which is no edge of the
state machine. -/
theorem UpdatePartyStatus_skips_Ready :
    ((run World.init [.create 5 "P0" ["P1", "P2", "P3"] 2 TSSOperationKeyGen]).deref 0).map
      Party.Status = some PartyStatusForming ∧
    (UpdatePartyStatus (run World.init [.create 5 "P0" ["P1", "P2", "P3"] 2 TSSOperationKeyGen])
      "party-5" PartyStatusActive).1 = .ok () ∧
    ((UpdatePartyStatus (run World.init [.create 5 "P0" ["P1", "P2", "P3"] 2 TSSOperationKeyGen])
      "party-5" PartyStatusActive).2.deref 0).map Party.Status = some PartyStatusActive ∧
    ¬ StatusEdge PartyStatusForming PartyStatusActive := by
  refine ⟨?_, rfl, ?_, ?_⟩
  · decide
  · decide
  · simp [StatusEdge, PartyStatusForming, PartyStatusActive, PartyStatusReady,
      PartyStatusCompleted, PartyStatusFailed]

theorem deref_cleanupParty (w : World) (partyID : String) (party : Nat) :
    (cleanupParty w partyID).deref party = w.deref party := by
  simp only [World.deref, cleanupParty_heap]

theorem status_setStatus (w : World) (party : Nat) (status : PartyStatus) (q : Nat) :
    ((w.setStatus party status).deref q).map Party.Status =
      if q = party then (w.deref q).map (fun _ => status)
      else (w.deref q).map Party.Status := by
  rw [deref_setStatus]
  by_cases hq : q = party
  · cases w.deref q <;> simp [hq]
  · cases w.deref q <;> simp [hq]

/-- C9 as amended: `UpdatePartyStatus` checks no transition. When the primary table
holds a party under the ID, the call sets the Status of that party to the requested one,
whatever it was, and changes the Status of no other party; when it holds none, no Status
changes. The formation task changes the Status of its own party only: when the deadline
or the cancellation has fired, from `Forming` to `Failed` and from nothing else; and when
it has not, a party that is still `Forming` becomes `Ready`. -/
theorem status_changes_of_operations (w : World) (party : Nat) :
    (∀ partyID status held, GoMap.lookup w.pm.parties partyID = some held →
      ((UpdatePartyStatus w partyID status).2.deref party).map Party.Status =
        if party = held then (w.deref party).map (fun _ => status)
        else (w.deref party).map Party.Status) ∧
    (∀ partyID status, GoMap.lookup w.pm.parties partyID = none →
      ((UpdatePartyStatus w partyID status).2.deref party).map Party.Status =
        (w.deref party).map Party.Status) ∧
    (∀ task, ((formParty w task true).deref party).map Party.Status =
      if party = task ∧ (w.deref party).map Party.Status = some PartyStatusForming then
        some PartyStatusFailed
      else (w.deref party).map Party.Status) ∧
    (∀ task, (w.deref task).map Party.Status = some PartyStatusForming →
      ((formParty w task false).deref party).map Party.Status =
        if party = task then some PartyStatusReady else (w.deref party).map Party.Status) := by
  refine ⟨?_, ?_, ?_, ?_⟩
  · intro partyID status held h
    simp only [UpdatePartyStatus, h]
    split
    · rw [deref_cleanupParty, status_setStatus]
    · rw [status_setStatus]
  · intro partyID status h
    simp only [UpdatePartyStatus, h]
  · intro task
    simp only [formParty, if_true]
    cases ht : w.deref task with
    | none =>
      by_cases hq : party = task
      · subst hq; simp [ht]
      · simp [hq]
    | some p =>
      simp only []
      by_cases hf : p.Status = PartyStatusForming
      · simp only [hf, if_true]
        rw [deref_cleanupParty, status_setStatus]
        by_cases hq : party = task
        · subst hq; simp [ht, hf]
        · simp [hq]
      · simp only [hf, if_false]
        by_cases hq : party = task
        · subst hq; simp [ht, hf]
        · simp [hq]
  · intro task hf
    simp only [formParty, Bool.false_eq_true, if_false]
    rw [status_setStatus]
    by_cases hq : party = task
    · subst hq
      cases hd : w.deref party with
      | none => simp [hd] at hf
      | some p => simp
    · simp [hq]

/-- The formation task of C9 on a party that is still `Forming`: it becomes `Ready`
without a deadline and `Failed` with one. -/
theorem status_changes_of_operations_witness :
    ((formParty (run World.init [.create 5 "P0" ["P1", "P2", "P3"] 2 TSSOperationKeyGen])
      0 false).deref 0).map Party.Status = some PartyStatusReady ∧
    ((formParty (run World.init [.create 5 "P0" ["P1", "P2", "P3"] 2 TSSOperationKeyGen])
      0 true).deref 0).map Party.Status = some PartyStatusFailed :=
  ⟨((status_changes_of_operations
      (run World.init [.create 5 "P0" ["P1", "P2", "P3"] 2 TSSOperationKeyGen]) 0).2.2.2 0
      (by decide)).trans (by decide),
   ((status_changes_of_operations
      (run World.init [.create 5 "P0" ["P1", "P2", "P3"] 2 TSSOperationKeyGen]) 0).2.2.1
      0).trans (by decide)⟩

/-! ## The formation task -/

/-- C10 as stated fails: the driver marks the party `Active` before the formation task
reaches its `select`, and the context is cancelled; the task, still pending, leaves the
Status `Active` (neither `Ready` nor `Failed`) and the party in the primary table. -/
theorem formParty_deadline_leaves_Active_party :
    0 ∈ (run World.init [.create 5 "P0" ["P1", "P2", "P3"] 2 TSSOperationKeyGen,
      .update "party-5" PartyStatusActive]).forming ∧
    ((formParty (run World.init [.create 5 "P0" ["P1", "P2", "P3"] 2 TSSOperationKeyGen,
      .update "party-5" PartyStatusActive]) 0 true).deref 0).map Party.Status
      = some PartyStatusActive ∧
    PartyStatusActive ≠ PartyStatusReady ∧ PartyStatusActive ≠ PartyStatusFailed ∧
    GetParty (formParty (run World.init
      [.create 5 "P0" ["P1", "P2", "P3"] 2 TSSOperationKeyGen,
       .update "party-5" PartyStatusActive]) 0 true) "party-5" = .ok 0 := by
  refine ⟨?_, ?_, ?_, ?_, rfl⟩ <;> decide

/-- C10 as amended, for a party handed to the formation task in a state reached from a
new manager. When the deadline or the cancellation has fired and the party is still
`Forming` and is the one the primary table holds under its ID, the Status becomes `Failed`
and the party is removed from the primary table and from the reverse-index set of every
member. When it has fired and the party is no longer `Forming`, nothing changes. When it
has not fired, the Status becomes `Ready` and the primary table and the reverse index are
unchanged. -/
theorem formParty_outcome (ops : List Op) (party : Nat) (p : Party)
    (hp : (run World.init ops).deref party = some p) :
    (p.Status = PartyStatusForming →
      GoMap.lookup (run World.init ops).pm.parties p.ID = some party →
      ((formParty (run World.init ops) party true).deref party).map Party.Status
        = some PartyStatusFailed ∧
      (∃ e, GetParty (formParty (run World.init ops) party true) p.ID = .error e) ∧
      party ∉ GetAllParties (formParty (run World.init ops) party true) ∧
      ∀ m ∈ p.Members, p.ID ∉ GetPeerParties (formParty (run World.init ops) party true) m) ∧
    (p.Status ≠ PartyStatusForming →
      formParty (run World.init ops) party true = run World.init ops) ∧
    (((formParty (run World.init ops) party false).deref party).map Party.Status
        = some PartyStatusReady ∧
      (formParty (run World.init ops) party false).pm.parties
        = (run World.init ops).pm.parties ∧
      (formParty (run World.init ops) party false).pm.peerParties
        = (run World.init ops).pm.peerParties) := by
  have hs : TableSound (run World.init ops) := tableSound_run _ ops tableSound_init
  generalize run World.init ops = w at hp hs ⊢
  refine ⟨?_, ?_, ?_⟩
  · intro hf hheld
    have hp1 : (w.setStatus party PartyStatusFailed).deref party
        = some { p with Status := PartyStatusFailed } := by
      rw [deref_setStatus, hp]; simp
    have hl1 : GoMap.lookup (w.setStatus party PartyStatusFailed).pm.parties p.ID
        = some party := by
      rw [setStatus_pm]; exact hheld
    have hform : formParty w party true =
        cleanupParty (w.setStatus party PartyStatusFailed) p.ID := by
      simp only [formParty, hp, hf, if_true]
    rw [hform]
    refine ⟨?_, ?_, ?_, ?_⟩
    · rw [deref_cleanupParty, hp1]; rfl
    · exact ⟨"party not found: " ++ p.ID, by
        rw [cleanupParty_of_held _ p.ID party _ hl1 hp1]
        simp [GetParty, GoMap.lookup_delete_self]⟩
    · rw [cleanupParty_of_held _ p.ID party _ hl1 hp1]
      simp only [GetAllParties, setStatus_pm]
      exact not_mem_values_delete w hs p.ID party hheld
    · intro m hm hc
      rw [cleanupParty_of_held _ p.ID party _ hl1 hp1, mem_GetPeerParties] at hc
      exact ((indexed_foldl_unindexMember _ _ _ _ _).1 hc).2 ⟨hm, rfl⟩
  · intro hf
    simp only [formParty, hp, hf, if_true, if_false]
  · simp only [formParty, Bool.false_eq_true, if_false]
    refine ⟨?_, by rw [setStatus_pm], by rw [setStatus_pm]⟩
    rw [deref_setStatus, hp]; simp

/-- The deadline of C10 on the party of `P1`, `P2`, `P3`, still `Forming`: it becomes
`Failed` and `P1` no longer lists it. -/
theorem formParty_outcome_witness :
    ((formParty (run World.init [.create 5 "P0" ["P1", "P2", "P3"] 2 TSSOperationKeyGen])
      0 true).deref 0).map Party.Status = some PartyStatusFailed ∧
    "party-5" ∉ GetPeerParties
      (formParty (run World.init [.create 5 "P0" ["P1", "P2", "P3"] 2 TSSOperationKeyGen])
        0 true) "P1" :=
  ⟨((formParty_outcome [.create 5 "P0" ["P1", "P2", "P3"] 2 TSSOperationKeyGen] 0
      ⟨"party-5", ["P1", "P2", "P3"], 2, PartyStatusForming, TSSOperationKeyGen⟩
      (by decide)).1 rfl (by decide)).1,
   ((formParty_outcome [.create 5 "P0" ["P1", "P2", "P3"] 2 TSSOperationKeyGen] 0
      ⟨"party-5", ["P1", "P2", "P3"], 2, PartyStatusForming, TSSOperationKeyGen⟩
      (by decide)).1 rfl (by decide)).2.2.2 "P1" (by decide)⟩

/-! ## The reverse index when IDs do not collide -/

theorem holds_setStatus (w : World) (party : Nat) (status : PartyStatus) (partyID : String)
    (peer : PeerID) : Holds (w.setStatus party status) partyID peer ↔ Holds w partyID peer := by
  unfold Holds
  simp only [setStatus_pm, deref_setStatus]
  constructor
  · rintro ⟨q, p, hl, hd, hm⟩
    cases hq : w.deref q with
    | none => simp [hq] at hd
    | some p0 =>
      simp only [hq, Option.map_some', Option.some.injEq] at hd
      refine ⟨q, p0, hl, hq, ?_⟩
      subst hd
      by_cases hqp : q = party
      · simpa [hqp] using hm
      · simpa [hqp] using hm
  · rintro ⟨q, p, hl, hd, hm⟩
    refine ⟨q, if q = party then { p with Status := status } else p, hl, by simp [hd], ?_⟩
    by_cases hqp : q = party
    · simpa [hqp] using hm
    · simpa [hqp] using hm

theorem indexConsistent_setStatus (w : World) (party : Nat) (status : PartyStatus)
    (h : IndexConsistent w) : IndexConsistent (w.setStatus party status) := by
  intro peer partyID
  rw [holds_setStatus, ← h peer partyID]
  simp only [GetPeerParties, setStatus_pm]

theorem indexConsistent_cleanupParty (w : World) (partyID : String)
    (h : IndexConsistent w) : IndexConsistent (cleanupParty w partyID) := by
  cases hl : GoMap.lookup w.pm.parties partyID with
  | none => simpa only [cleanupParty, hl] using h
  | some ptr =>
    cases hd : w.deref ptr with
    | none => simpa only [cleanupParty, hl, hd] using h
    | some p =>
      rw [cleanupParty_of_held w partyID ptr p hl hd]
      intro peer x
      rw [mem_GetPeerParties]
      simp only [indexed_foldl_unindexMember]
      have hold := h peer x
      rw [mem_GetPeerParties] at hold
      rw [hold]
      unfold Holds
      simp only [World.deref]
      by_cases hx : x = partyID
      · subst hx
        simp only [GoMap.lookup_delete_self]
        constructor
        · rintro ⟨⟨q, p0, hq, hp0, hm⟩, hn⟩
          rw [hl] at hq
          cases hq
          simp only [World.deref] at hd
          rw [hd] at hp0
          cases hp0
          exact absurd (by simpa using hm) hn
        · rintro ⟨q, p0, hq, _⟩
          cases hq
      · simp only [GoMap.lookup_delete_ne _ hx, hx, and_false, not_false_eq_true, and_true]

theorem indexConsistent_CreateParty (w : World) (now : Int) (initiator : PeerID)
    (members : List PeerID) (threshold : Int) (operation : TSSOperation)
    (hs : TableSound w) (h : IndexConsistent w)
    (hfresh : (∃ party, (CreateParty w now initiator members threshold operation).1 = .ok party) →
      GoMap.lookup w.pm.parties (generatePartyID now) = none) :
    IndexConsistent (CreateParty w now initiator members threshold operation).2 := by
  by_cases hv : 3 ≤ members.length ∧ members.length ≤ 10 ∧ 2 ≤ threshold ∧
      threshold ≤ (members.length : Int)
  · have hnone : GoMap.lookup w.pm.parties (generatePartyID now) = none := by
      apply hfresh
      rw [CreateParty_of_valid w now initiator members threshold operation hv]
      exact ⟨_, rfl⟩
    rw [CreateParty_of_valid w now initiator members threshold operation hv]
    intro peer x
    rw [mem_GetPeerParties]
    simp only [indexed_foldl_indexMember]
    have hold := h peer x
    rw [mem_GetPeerParties] at hold
    rw [hold]
    unfold Holds
    simp only [World.deref]
    by_cases hx : x = generatePartyID now
    · subst hx
      simp only [GoMap.lookup_store_self, hnone, and_true]
      constructor
      · rintro (hm | ⟨q, p0, hq, _⟩)
        · exact ⟨w.heap.length, _, rfl, List.getElem?_concat_length _ _, hm⟩
        · cases hq
      · rintro ⟨q, p0, hq, hp0, hm⟩
        cases hq
        rw [List.getElem?_concat_length] at hp0
        cases hp0
        exact Or.inl hm
    · simp only [GoMap.lookup_store_ne _ _ hx, hx, and_false, false_or]
      constructor
      · rintro ⟨q, p0, hq, hp0, hm⟩
        refine ⟨q, p0, hq, ?_, hm⟩
        rw [List.getElem?_append_left (List.getElem?_eq_some.mp hp0).1]
        exact hp0
      · rintro ⟨q, p0, hq, hp0, hm⟩
        obtain ⟨p1, hp1, _⟩ := hs (x, q) (GoMap.mem_of_lookup _ _ _ hq)
        simp only [World.deref] at hp1
        rw [List.getElem?_append_left (List.getElem?_eq_some.mp hp1).1] at hp0
        exact ⟨q, p0, hq, hp0, hm⟩
  · obtain ⟨e, he⟩ := CreateParty_of_invalid w now initiator members threshold operation hv
    rw [he]
    exact h

theorem indexConsistent_step (w : World) (op : Op) (hs : TableSound w)
    (h : IndexConsistent w) (hfresh : FreshIDs w [op]) : IndexConsistent (step w op) := by
  cases op with
  | create now initiator members threshold operation =>
    exact indexConsistent_CreateParty w now initiator members threshold operation hs h hfresh.1
  | update partyID status =>
    simp only [step, UpdatePartyStatus]
    cases GoMap.lookup w.pm.parties partyID with
    | none => exact h
    | some ptr =>
      simp only []
      split
      · exact indexConsistent_cleanupParty _ _ (indexConsistent_setStatus w ptr status h)
      · exact indexConsistent_setStatus w ptr status h
  | form party done =>
    simp only [step]
    split
    · have hf : IndexConsistent (formParty w party done) := by
        unfold formParty
        cases done with
        | false => exact indexConsistent_setStatus w party _ h
        | true =>
          simp only [if_true]
          cases w.deref party with
          | none => exact h
          | some p =>
            simp only []
            split
            · exact indexConsistent_cleanupParty _ _ (indexConsistent_setStatus w party _ h)
            · exact h
      exact hf
    · exact h
  | cleanup partyID => exact indexConsistent_cleanupParty w partyID h

theorem indexConsistent_run (w : World) (ops : List Op) (hs : TableSound w)
    (h : IndexConsistent w) (hfresh : FreshIDs w ops) : IndexConsistent (run w ops) := by
  induction ops generalizing w with
  | nil => exact h
  | cons op ops ih =>
    exact ih (step w op) (tableSound_step w op hs)
      (indexConsistent_step w op hs h ⟨hfresh.1, trivial⟩) hfresh.2

/-- The reverse index is consistent in every state reached from a new manager along steps
in which no successful `CreateParty` allocates an ID that the primary table holds. -/
theorem reverse_index_consistent_of_fresh_IDs (ops : List Op)
    (hfresh : FreshIDs World.init ops) (peer : PeerID) (partyID : String) :
    partyID ∈ GetPeerParties (run World.init ops) peer ↔
      ∃ party p, GoMap.lookup (run World.init ops).pm.parties partyID = some party ∧
        (run World.init ops).deref party = some p ∧ peer ∈ p.Members :=
  indexConsistent_run World.init ops tableSound_init
    (by
      intro peer partyID
      constructor
      · intro hm; cases hm
      · rintro ⟨q, p, hq, _⟩; cases hq)
    hfresh peer partyID

/-- Two overlapping parties created at different clock values, the first then completed:
the run allocates fresh IDs, and `P3` lists `party-6` as the primary table says. -/
theorem reverse_index_consistent_of_fresh_IDs_example :
    "party-6" ∈ GetPeerParties (run World.init
      [.create 5 "P0" ["P1", "P2", "P3"] 2 TSSOperationKeyGen,
       .create 6 "P0" ["P3", "P4", "P5"] 3 TSSOperationSigning,
       .update "party-5" PartyStatusCompleted]) "P3" ↔
      ∃ party p, GoMap.lookup (run World.init
        [.create 5 "P0" ["P1", "P2", "P3"] 2 TSSOperationKeyGen,
         .create 6 "P0" ["P3", "P4", "P5"] 3 TSSOperationSigning,
         .update "party-5" PartyStatusCompleted]).pm.parties "party-6" = some party ∧
        (run World.init
          [.create 5 "P0" ["P1", "P2", "P3"] 2 TSSOperationKeyGen,
           .create 6 "P0" ["P3", "P4", "P5"] 3 TSSOperationSigning,
           .update "party-5" PartyStatusCompleted]).deref party = some p ∧
        "P3" ∈ p.Members :=
  reverse_index_consistent_of_fresh_IDs
    [.create 5 "P0" ["P1", "P2", "P3"] 2 TSSOperationKeyGen,
     .create 6 "P0" ["P3", "P4", "P5"] 3 TSSOperationSigning,
     .update "party-5" PartyStatusCompleted]
    ⟨fun _ => by decide, fun _ => by decide, trivial, trivial⟩ "P3" "party-6"

/-! ## Cleanup twice -/

/-- C11: `cleanupParty` on an ID that the primary table does not hold changes nothing
(primary table, reverse index and the rest of the state), and for every state and every
ID running `cleanupParty` twice gives the state that running it once gives. -/
theorem cleanupParty_idempotent (w : World) (partyID : String) :
    (GoMap.lookup w.pm.parties partyID = none →
      cleanupParty w partyID = w ∧
      (cleanupParty w partyID).pm.parties = w.pm.parties ∧
      (cleanupParty w partyID).pm.peerParties = w.pm.peerParties) ∧
    cleanupParty (cleanupParty w partyID) partyID = cleanupParty w partyID := by
  have hnone : ∀ v : World, GoMap.lookup v.pm.parties partyID = none →
      cleanupParty v partyID = v := by
    intro v hv
    simp only [cleanupParty, hv]
  refine ⟨fun h => ?_, ?_⟩
  · rw [hnone w h]
    exact ⟨rfl, rfl, rfl⟩
  · cases hl : GoMap.lookup w.pm.parties partyID with
    | none => rw [hnone w hl, hnone w hl]
    | some ptr =>
      cases hd : w.deref ptr with
      | none =>
        have hw : cleanupParty w partyID = w := by simp only [cleanupParty, hl, hd]
        rw [hw, hw]
      | some p =>
        apply hnone
        rw [cleanupParty_of_held w partyID ptr p hl hd]
        exact GoMap.lookup_delete_self _ _

/-- Cleanup of C11 after the party of `P1`, `P2`, `P3` was completed, which removed it:
nothing changes. -/
theorem cleanupParty_idempotent_witness :
    cleanupParty (run World.init
        [.create 5 "P0" ["P1", "P2", "P3"] 2 TSSOperationKeyGen,
         .create 6 "P0" ["P3", "P4", "P5"] 3 TSSOperationSigning,
         .update "party-5" PartyStatusCompleted]) "party-5"
      = run World.init
        [.create 5 "P0" ["P1", "P2", "P3"] 2 TSSOperationKeyGen,
         .create 6 "P0" ["P3", "P4", "P5"] 3 TSSOperationSigning,
         .update "party-5" PartyStatusCompleted] :=
  ((cleanupParty_idempotent (run World.init
        [.create 5 "P0" ["P1", "P2", "P3"] 2 TSSOperationKeyGen,
         .create 6 "P0" ["P3", "P4", "P5"] 3 TSSOperationSigning,
         .update "party-5" PartyStatusCompleted]) "party-5").1 (by decide)).1

/-! ## Bounds of the parties in the table -/

theorem withinBounds_setStatus (w : World) (party : Nat) (status : PartyStatus)
    (h : ∀ p ∈ w.heap, WithinBounds p) : ∀ p ∈ (w.setStatus party status).heap, WithinBounds p := by
  unfold World.setStatus
  cases hp : w.heap[party]? with
  | none => exact h
  | some p0 =>
    intro p hpm
    rcases List.mem_or_eq_of_mem_set hpm with h1 | h1
    · exact h p h1
    · have h0 : WithinBounds p0 := h p0 (List.getElem?_mem hp)
      rw [h1]
      exact h0

theorem withinBounds_step (w : World) (op : Op) (h : ∀ p ∈ w.heap, WithinBounds p) :
    ∀ p ∈ (step w op).heap, WithinBounds p := by
  cases op with
  | create now initiator members threshold operation =>
    by_cases hv : 3 ≤ members.length ∧ members.length ≤ 10 ∧ 2 ≤ threshold ∧
        threshold ≤ (members.length : Int)
    · simp only [step, CreateParty_of_valid w now initiator members threshold operation hv]
      intro p hp
      rcases List.mem_append.mp hp with h1 | h1
      · exact h p h1
      · rw [List.mem_singleton.mp h1]
        exact hv
    · obtain ⟨e, he⟩ := CreateParty_of_invalid w now initiator members threshold operation hv
      simp only [step, he]
      exact h
  | update partyID status =>
    simp only [step, UpdatePartyStatus]
    cases GoMap.lookup w.pm.parties partyID with
    | none => exact h
    | some ptr =>
      simp only []
      split
      · rw [cleanupParty_heap]; exact withinBounds_setStatus w ptr status h
      · exact withinBounds_setStatus w ptr status h
  | form party done =>
    simp only [step]
    split
    · simp only [formParty]
      cases done with
      | false => exact withinBounds_setStatus w party _ h
      | true =>
        simp only [if_true]
        cases w.deref party with
        | none => exact h
        | some p =>
          simp only []
          split
          · rw [cleanupParty_heap]; exact withinBounds_setStatus w party _ h
          · exact h
    · exact h
  | cleanup partyID =>
    simp only [step, cleanupParty_heap]
    exact h

theorem withinBounds_run (w : World) (ops : List Op) (h : ∀ p ∈ w.heap, WithinBounds p) :
    ∀ p ∈ (run w ops).heap, WithinBounds p := by
  induction ops generalizing w with
  | nil => exact h
  | cons op ops ih => exact ih (step w op) (withinBounds_step w op h)

/-- C12 as stated fails: `CreateParty` accepts the member list `P1`, `P1`, `P1` with
threshold 3; the party it puts in the primary table has one distinct member, fewer than
3 and fewer than its threshold. -/
theorem CreateParty_accepts_repeated_members :
    GetParty (run World.init [.create 5 "P0" ["P1", "P1", "P1"] 3 TSSOperationKeyGen])
      "party-5" = .ok 0 ∧
    ((run World.init [.create 5 "P0" ["P1", "P1", "P1"] 3 TSSOperationKeyGen]).deref 0).map
      (fun p => p.Members.toFinset.card) = some 1 ∧
    ((run World.init [.create 5 "P0" ["P1", "P1", "P1"] 3 TSSOperationKeyGen]).deref 0).map
      Party.Threshold = some 3 := by
  refine ⟨rfl, ?_, ?_⟩ <;> decide

/-- C12 as amended: in every state reached from a new manager, every party held in the
primary table has a member list of between 3 and 10 entries, repetitions counted, and a
threshold between 2 and the length of that list. -/
theorem parties_within_bounds (ops : List Op) (partyID : String) (party : Nat)
    (h : GoMap.lookup (run World.init ops).pm.parties partyID = some party) :
    ∃ p, (run World.init ops).deref party = some p ∧
      3 ≤ p.Members.length ∧ p.Members.length ≤ 10 ∧
      2 ≤ p.Threshold ∧ p.Threshold ≤ (p.Members.length : Int) := by
  obtain ⟨p, hp, _⟩ := tableSound_run _ ops tableSound_init (partyID, party)
    (GoMap.mem_of_lookup _ _ _ h)
  exact ⟨p, hp, withinBounds_run World.init ops (by intro q hq; cases hq) p
    (List.getElem?_mem hp)⟩

/-- The bounds of C12 on the party with the repeated member `P1`, after its formation. -/
theorem parties_within_bounds_witness :
    ∃ p, (run World.init [.create 5 "P0" ["P1", "P1", "P1"] 3 TSSOperationKeyGen,
        .form 0 false]).deref 0 = some p ∧
      3 ≤ p.Members.length ∧ p.Members.length ≤ 10 ∧
      2 ≤ p.Threshold ∧ p.Threshold ≤ (p.Members.length : Int) :=
  parties_within_bounds
    [.create 5 "P0" ["P1", "P1", "P1"] 3 TSSOperationKeyGen, .form 0 false] "party-5" 0
    (by decide)

/-! ## The security layer -/

theorem length_deriveKey (lib : Lib) (sl : SecurityLayer) (secret info : Bytes) :
    (sl.deriveKey lib secret info).length = 32 := by
  simp [SecurityLayer.deriveKey]

/-- The key that every security layer uses for every peer. -/
theorem deriveKey_independent (lib : Lib) (sl sl' : SecurityLayer) (secret info : Bytes) :
    sl.deriveKey lib secret info = sl'.deriveKey lib secret info := rfl

theorem ioReadFull_ok (rand : Bytes) (n : Nat) (h : n ≤ rand.length) :
    ioReadFull rand n = .ok (rand.take n) := by
  simp [ioReadFull, h]

theorem EncryptMessage_ok (lib : Lib) (sl : SecurityLayer) (rand msg : Bytes)
    (recipientPubKey : PubKey) (block : Bytes) (gcm : AEAD)
    (hAES : lib.aesNewCipher (sl.deriveKey lib [] (bytesOf "encryption")) = .ok block)
    (hGCM : lib.cipherNewGCM block = .ok gcm)
    (hrand : gcm.NonceSize ≤ rand.length) :
    sl.EncryptMessage lib rand msg recipientPubKey =
      .ok (rand.take gcm.NonceSize ++ gcm.Seal (rand.take gcm.NonceSize) msg) := by
  simp only [SecurityLayer.EncryptMessage, SecurityLayer.generateSharedSecret, hAES, hGCM,
    ioReadFull_ok rand _ hrand]

/-- C13: a message that node A encrypts for B is decrypted by B to exactly the plaintext,
whatever the keys of the two nodes and whatever nonce was drawn, when the AES cipher
accepts the derived key, GCM is built on it, `Open` undoes `Seal` under the same nonce,
and the random source delivers a nonce. -/
theorem DecryptMessage_EncryptMessage (lib : Lib) (slA slB : SecurityLayer)
    (pubA pubB : PubKey) (rand m : Bytes) (block : Bytes) (gcm : AEAD)
    (hAES : lib.aesNewCipher (slA.deriveKey lib [] (bytesOf "encryption")) = .ok block)
    (hGCM : lib.cipherNewGCM block = .ok gcm)
    (hOpen : ∀ nonce plaintext, nonce.length = gcm.NonceSize →
      gcm.Open nonce (gcm.Seal nonce plaintext) = .ok plaintext)
    (hrand : gcm.NonceSize ≤ rand.length) :
    ∃ c, slA.EncryptMessage lib rand m pubB = .ok c ∧
      slB.DecryptMessage lib c pubA = .ok m := by
  refine ⟨_, EncryptMessage_ok lib slA rand m pubB block gcm hAES hGCM hrand, ?_⟩
  have hAES' : lib.aesNewCipher (slB.deriveKey lib [] (bytesOf "encryption")) = .ok block :=
    hAES
  have hlen : (rand.take gcm.NonceSize).length = gcm.NonceSize := by
    simp [List.length_take, hrand]
  have hshort : ¬ (rand.take gcm.NonceSize ++ gcm.Seal (rand.take gcm.NonceSize) m).length
      < gcm.NonceSize := by
    simp only [List.length_append, hlen]; omega
  simp only [SecurityLayer.DecryptMessage, SecurityLayer.generateSharedSecret, hAES', hGCM,
    hshort, if_false]
  rw [List.take_left' hlen, List.drop_left' hlen, hOpen _ _ hlen]

/-- A round trip of C13 between two nodes with different keys, on the stand-in cipher:
the nonce is the first 12 bytes of the random source. -/
theorem DecryptMessage_EncryptMessage_witness :
    ∃ c, SecurityLayer.EncryptMessage stubLib ⟨[1, 2, 3]⟩
        [20, 21, 22, 23, 24, 25, 26, 27, 28, 29, 30, 31, 32] [104, 105] (some [7]) = .ok c ∧
      SecurityLayer.DecryptMessage stubLib ⟨[4, 5, 6]⟩ c (some [8]) = .ok [104, 105] :=
  DecryptMessage_EncryptMessage stubLib ⟨[1, 2, 3]⟩ ⟨[4, 5, 6]⟩ (some [8]) (some [7])
    [20, 21, 22, 23, 24, 25, 26, 27, 28, 29, 30, 31, 32] [104, 105]
    (SecurityLayer.deriveKey stubLib ⟨[1, 2, 3]⟩ [] (bytesOf "encryption"))
    { NonceSize := 12, Seal := fun _ plaintext => plaintext,
      Open := fun _ ciphertext => .ok ciphertext }
    rfl rfl (fun _ _ _ => rfl) (by decide)

/-- C14: the shared secret that the holder of `privA` derives for `pubB` is the one that
the holder of `privB` derives for `pubA`, and both derive from it the same key of 32
bytes with the label `encryption`. -/
theorem generateSharedSecret_commutative (lib : Lib) (privA privB : PrivKey)
    (pubA pubB : PubKey) :
    SecurityLayer.generateSharedSecret ⟨privA⟩ pubB
      = SecurityLayer.generateSharedSecret ⟨privB⟩ pubA ∧
    ∃ secret, SecurityLayer.generateSharedSecret ⟨privA⟩ pubB = .ok secret ∧
      SecurityLayer.generateSharedSecret ⟨privB⟩ pubA = .ok secret ∧
      SecurityLayer.deriveKey lib ⟨privA⟩ secret (bytesOf "encryption")
        = SecurityLayer.deriveKey lib ⟨privB⟩ secret (bytesOf "encryption") ∧
      (SecurityLayer.deriveKey lib ⟨privA⟩ secret (bytesOf "encryption")).length = 32 :=
  ⟨rfl, [], rfl, rfl, rfl, length_deriveKey lib _ _ _⟩

/-- C20: `generateSharedSecret` returns the empty secret and no error for every local key
and every peer key, so the key that `EncryptMessage` and `DecryptMessage` derive is the
one value `deriveKey` gives for the empty secret and the label `encryption`, whatever the
local key and the peer's key (the message does not enter it); two security layers with
different keys encrypt and decrypt alike. -/
theorem generateSharedSecret_is_stub (lib : Lib) (sl sl' : SecurityLayer)
    (peerPubKey peerPubKey' : PubKey) :
    sl.generateSharedSecret peerPubKey = .ok [] ∧
    (∀ secret secret', sl.generateSharedSecret peerPubKey = .ok secret →
      sl'.generateSharedSecret peerPubKey' = .ok secret' →
      sl.deriveKey lib secret (bytesOf "encryption")
        = sl'.deriveKey lib secret' (bytesOf "encryption") ∧
      sl.deriveKey lib secret (bytesOf "encryption")
        = (List.range 32).map (lib.hkdf [] (bytesOf "encryption"))) ∧
    (∀ rand msg, sl.EncryptMessage lib rand msg peerPubKey
      = sl'.EncryptMessage lib rand msg peerPubKey') ∧
    (∀ ciphertext, sl.DecryptMessage lib ciphertext peerPubKey
      = sl'.DecryptMessage lib ciphertext peerPubKey') := by
  refine ⟨rfl, ?_, fun _ _ => rfl, fun _ => rfl⟩
  intro secret secret' h h'
  cases h
  cases h'
  exact ⟨rfl, rfl⟩

/-! ## The secure envelope -/

/-- C15: when the message is marshalled to `msgBytes`, encrypted to `c` and `c` is signed
to `s`, `SendSecureMessage` hands to the router the envelope with `Type`, `PartyID` and
`To` of the message, `From` the identifier of the local key, and the payload `c`, `:`,
`s`; what it returns is what the router returns for that envelope. -/
theorem SendSecureMessage_encrypts_then_signs (lib : Lib) (n : Node) (rand : Bytes)
    (send : Message → Except String Unit) (msg : Message) (recipientPubKey : PubKey)
    (msgBytes c s : Bytes) (id : PeerID)
    (hm : lib.jsonMarshal msg = .ok msgBytes)
    (hc : n.secLayer.EncryptMessage lib rand msgBytes recipientPubKey = .ok c)
    (hs : n.secLayer.SignMessage lib c = .ok s)
    (hid : n.secLayer.GetPeerID lib = .ok id) :
    n.SendSecureMessage lib rand send msg recipientPubKey =
      Outcome.ofExcept (send
        { Type_ := msg.Type_, PartyID := msg.PartyID, From := id, To := msg.To,
          Payload := c ++ bytesOf ":" ++ s }) := by
  simp only [Node.SendSecureMessage, hm, hc, hs, hid, List.append_assoc]

/-- An envelope of C15 on the stand-in library, sent through a router that accepts only
the expected envelope: the payload is the nonce and the message, `:` (58), and the
signature over nonce and message. -/
theorem SendSecureMessage_encrypts_then_signs_witness :
    Node.SendSecureMessage stubLib ⟨fun _ => none, ⟨[1, 2, 3]⟩⟩
      [20, 21, 22, 23, 24, 25, 26, 27, 28, 29, 30, 31, 32]
      (fun envelope =>
        if envelope = ⟨MessageTypeSigning, "party-5", "peerA", "peerB",
            [20, 21, 22, 23, 24, 25, 26, 27, 28, 29, 30, 31, 104, 105, 58,
             1, 2, 3, 20, 21, 22, 23, 24, 25, 26, 27, 28, 29, 30, 31, 104, 105]⟩
        then .ok () else .error "another envelope")
      ⟨MessageTypeSigning, "party-5", "peerX", "peerB", [104, 105]⟩ (some [7])
    = .ok () :=
  (SendSecureMessage_encrypts_then_signs stubLib ⟨fun _ => none, ⟨[1, 2, 3]⟩⟩
      [20, 21, 22, 23, 24, 25, 26, 27, 28, 29, 30, 31, 32] _
      ⟨MessageTypeSigning, "party-5", "peerX", "peerB", [104, 105]⟩ (some [7])
      [104, 105] [20, 21, 22, 23, 24, 25, 26, 27, 28, 29, 30, 31, 104, 105]
      [1, 2, 3, 20, 21, 22, 23, 24, 25, 26, 27, 28, 29, 30, 31, 104, 105] "peerA"
      rfl rfl rfl rfl).trans (by decide)

/-- C16: an inbound envelope of two parts whose signature part does not verify over its
ciphertext part under the sender's key is answered with an error, and the answer is the
same for every library with the same `Verify`, whatever its cipher does with the
ciphertext: `DecryptMessage` has no part in it. -/
theorem handleSecureMessage_verifies_before_decrypt (lib lib' : Lib) (n : Node)
    (msg : Message) (encryptedMsg signature key : Bytes)
    (hparts : bytesSplit 58 msg.Payload = [encryptedMsg, signature])
    (hkey : n.Peerstore msg.From = some key)
    (hbad : lib.Verify key encryptedMsg signature ≠ .ok true)
    (hsame : lib'.Verify = lib.Verify) :
    (∃ err, n.handleSecureMessage lib msg = .error err) ∧
    n.handleSecureMessage lib' msg = n.handleSecureMessage lib msg := by
  have hres : ∀ l : Lib, l.Verify = lib.Verify →
      n.handleSecureMessage l msg =
        match lib.Verify key encryptedMsg signature with
        | .error err => .error ("failed to verify signature: " ++ err)
        | .ok _ => .error "invalid signature" := by
    intro l hl
    simp only [Node.handleSecureMessage, hparts, hkey, SecurityLayer.VerifySignature, hl]
    cases hv : lib.Verify key encryptedMsg signature with
    | error err => simp [Outcome.ofExcept]
    | ok valid =>
      cases valid with
      | false => simp [Outcome.ofExcept]
      | true => exact absurd hv hbad
  refine ⟨?_, ?_⟩
  · rw [hres lib rfl]
    cases lib.Verify key encryptedMsg signature with
    | error err => exact ⟨_, rfl⟩
    | ok valid => exact ⟨_, rfl⟩
  · rw [hres lib' hsame, hres lib rfl]

/-- An envelope of C16 on the stand-in library: the ciphertext part decrypts, the
signature part is not the signature, and the envelope is refused. -/
theorem handleSecureMessage_verifies_before_decrypt_witness :
    SecurityLayer.DecryptMessage stubLib ⟨[1, 2, 3]⟩
      [20, 21, 22, 23, 24, 25, 26, 27, 28, 29, 30, 31, 104, 105] (some [9])
      = .ok [104, 105] ∧
    ∃ err, Node.handleSecureMessage stubLib ⟨fun _ => some [9], ⟨[1, 2, 3]⟩⟩
      ⟨MessageTypeSigning, "party-5", "peerB", "peerA",
        [20, 21, 22, 23, 24, 25, 26, 27, 28, 29, 30, 31, 104, 105, 58, 1]⟩
      = .error err :=
  ⟨rfl,
   (handleSecureMessage_verifies_before_decrypt stubLib stubLib
      ⟨fun _ => some [9], ⟨[1, 2, 3]⟩⟩
      ⟨MessageTypeSigning, "party-5", "peerB", "peerA",
        [20, 21, 22, 23, 24, 25, 26, 27, 28, 29, 30, 31, 104, 105, 58, 1]⟩
      [20, 21, 22, 23, 24, 25, 26, 27, 28, 29, 30, 31, 104, 105] [1] [9]
      (by decide) rfl
      (by
        intro h
        have hv : stubLib.Verify [9]
            [20, 21, 22, 23, 24, 25, 26, 27, 28, 29, 30, 31, 104, 105] [1] = .ok false := rfl
        rw [hv] at h
        cases h)
      rfl).1⟩

/-! ## A sender without a public key -/

/-- An inbound envelope of two parts from a sender without a key in the peer store makes
`handleSecureMessage` panic, whatever the library. -/
theorem handleSecureMessage_panics_of_absent_key (lib : Lib) (n : Node) (msg : Message)
    (encryptedMsg signature : Bytes)
    (hparts : bytesSplit 58 msg.Payload = [encryptedMsg, signature])
    (hkey : n.Peerstore msg.From = none) :
    n.handleSecureMessage lib msg
      = .panic "invalid memory address or nil pointer dereference" := by
  simp only [Node.handleSecureMessage, hparts, hkey, SecurityLayer.VerifySignature]

/-- With the sender's key in the peer store `handleSecureMessage` returns a message or an
error. -/
theorem handleSecureMessage_returns_of_key (lib : Lib) (n : Node) (msg : Message)
    (key : Bytes) (hkey : n.Peerstore msg.From = some key) :
    (∃ original, n.handleSecureMessage lib msg = .ok original) ∨
    (∃ err, n.handleSecureMessage lib msg = .error err) := by
  unfold Node.handleSecureMessage
  split
  · simp only [hkey, SecurityLayer.VerifySignature]
    rename_i encryptedMsg signature _
    cases lib.Verify key encryptedMsg signature with
    | error err => exact Or.inr ⟨_, rfl⟩
    | ok valid =>
      cases valid with
      | false => exact Or.inr ⟨_, rfl⟩
      | true =>
        simp only [Outcome.ofExcept, Bool.not_true, Bool.false_eq_true, if_false]
        cases n.secLayer.DecryptMessage lib encryptedMsg (some key) with
        | error err => exact Or.inr ⟨_, rfl⟩
        | ok decryptedMsg =>
          simp only []
          cases lib.jsonUnmarshal decryptedMsg with
          | error err => exact Or.inr ⟨_, rfl⟩
          | ok originalMsg => exact Or.inl ⟨_, rfl⟩
  · exact Or.inr ⟨_, rfl⟩

/-- C17, the code at the failing input: the envelope of `peerC`, whose key the peer store
does not have, with the payload `a:b`, makes `handleSecureMessage` panic, and the round of
the receive loop that dispatches it to `handlePartyFormation` ends the loop. -/
theorem handleSecureMessage_panics_without_sender_key :
    Node.handleSecureMessage (stubLibFrom "peerC") ⟨fun _ => none, ⟨[1, 2, 3]⟩⟩
      ⟨MessageTypePartyFormation, "", "peerC", "", bytesOf "a:b"⟩
      = .panic "invalid memory address or nil pointer dereference" ∧
    MessageRouter.handleMessages (stubLibFrom "peerC")
      (MessageRouter.RegisterHandler ⟨"peerA", []⟩ MessageTypePartyFormation
        (Node.handlePartyFormation (stubLibFrom "peerC") ⟨fun _ => none, ⟨[1, 2, 3]⟩⟩))
      (.ok ⟨"peerB", bytesOf "a:b"⟩)
      = .crashed ⟨MessageTypePartyFormation, "", "peerC", "", bytesOf "a:b"⟩
          "invalid memory address or nil pointer dereference" := by
  constructor <;> decide

/-! ## Messages of the local peer -/

/-- C18 as stated fails: a message that another peer, `peerB`, delivers and whose
envelope names the local peer `peerA` as `From` is dispatched to the handler of its type,
here one that answers with the error `called`. -/
theorem handleMessages_dispatches_envelope_from_self :
    (stubLibFrom "peerA").jsonUnmarshal [1] =
      .ok ⟨MessageTypePartyFormation, "", "peerA", "", [1]⟩ ∧
    MessageRouter.handleMessages (stubLibFrom "peerA")
      (MessageRouter.RegisterHandler ⟨"peerA", []⟩ MessageTypePartyFormation
        (fun _ => .error "called"))
      (.ok ⟨"peerB", [1]⟩)
      = .handled ⟨MessageTypePartyFormation, "", "peerA", "", [1]⟩ (some "called") := by
  constructor
  · rfl
  · decide

/-- C18 as amended: a pubsub message that was received from the local peer itself is
discarded and no handler is invoked, whatever its envelope; a message received from
another peer is decoded and given to the handler registered for its type, whatever the
`From` of its envelope, the local peer's identifier included. -/
theorem handleMessages_ignores_received_from_self (lib : Lib) (mr : MessageRouter)
    (msg : PubsubMessage) :
    (msg.ReceivedFrom = mr.hostID → mr.handleMessages lib (.ok msg) = .ignoredSelf) ∧
    (∀ message handler, msg.ReceivedFrom ≠ mr.hostID →
      lib.jsonUnmarshal msg.Data = .ok message →
      GoMap.lookup mr.handlers message.Type_ = some handler →
      mr.handleMessages lib (.ok msg) =
        match handler message with
        | .ok _ => .handled message none
        | .error err => .handled message (some err)
        | .panic reason => .crashed message reason) := by
  refine ⟨fun h => ?_, fun message handler h hu hl => ?_⟩
  · simp only [MessageRouter.handleMessages, h, if_true]
  · simp only [MessageRouter.handleMessages, h, if_false, hu, hl]

/-- The local publication of C18: the message that the local peer `peerA` receives from
itself is discarded, although a handler for its type is registered. -/
theorem handleMessages_ignores_received_from_self_witness :
    MessageRouter.handleMessages (stubLibFrom "peerA")
      (MessageRouter.RegisterHandler ⟨"peerA", []⟩ MessageTypePartyFormation
        (fun _ => .error "called"))
      (.ok ⟨"peerA", [1]⟩) = .ignoredSelf :=
  (handleMessages_ignores_received_from_self (stubLibFrom "peerA")
    (MessageRouter.RegisterHandler ⟨"peerA", []⟩ MessageTypePartyFormation
      (fun _ => .error "called")) ⟨"peerA", [1]⟩).1 rfl

/-! ## Start and stop of the node -/

/-- C19 as stated fails: `Node.Stop` stops Discovery first and the Message Router after
it, not the Message Router first. -/
theorem Stop_stops_discovery_first :
    Node.Stop (.ok ()) (.ok ()) = ([.discoveryStop, .msgRouterStop], .ok ()) ∧
    [LifecycleCall.discoveryStop, LifecycleCall.msgRouterStop]
      ≠ [LifecycleCall.msgRouterStop, LifecycleCall.discoveryStop] := by
  constructor
  · rfl
  · decide

/-- C19 as amended: `Node.Start` starts Discovery and then the Message Router, and
`Node.Stop` stops the two in the same order, Discovery first and then the Message Router;
in both, an error of the first call is returned before the second call is made. -/
theorem Start_and_Stop_order (e : String) (second : Except String Unit) :
    Node.Start (.ok ()) (.ok ())
      = ([.discoveryStart, .msgRouterStart, .goHandleDiscoveredPeers], .ok ()) ∧
    Node.Start (.ok ()) (.error e)
      = ([.discoveryStart, .msgRouterStart],
          .error ("failed to start message router: " ++ e)) ∧
    Node.Start (.error e) second
      = ([.discoveryStart], .error ("failed to start node discovery: " ++ e)) ∧
    Node.Stop (.ok ()) (.ok ()) = ([.discoveryStop, .msgRouterStop], .ok ()) ∧
    Node.Stop (.ok ()) (.error e)
      = ([.discoveryStop, .msgRouterStop],
          .error ("failed to stop message router: " ++ e)) ∧
    Node.Stop (.error e) second
      = ([.discoveryStop], .error ("failed to stop node discovery: " ++ e)) :=
  ⟨rfl, rfl, rfl, rfl, rfl, rfl⟩

/-! ## Framing of the secure envelope -/

theorem bytesSplit_ne_nil (sep : Byte) (s : Bytes) : bytesSplit sep s ≠ [] := by
  induction s with
  | nil => simp [bytesSplit]
  | cons b s ih =>
    by_cases hb : b = sep
    · simp [bytesSplit, hb]
    · cases h : bytesSplit sep s with
      | nil => exact absurd h ih
      | cons part parts => simp [bytesSplit, hb, h]

theorem length_bytesSplit (sep : Byte) (s : Bytes) :
    (bytesSplit sep s).length = s.count sep + 1 := by
  induction s with
  | nil => simp [bytesSplit]
  | cons b s ih =>
    by_cases hb : b = sep
    · subst hb
      simp [bytesSplit, ih]
    · cases h : bytesSplit sep s with
      | nil => exact absurd h (bytesSplit_ne_nil sep s)
      | cons part parts =>
        rw [h] at ih
        simp only [bytesSplit, hb, if_false, h, List.length_cons] at ih ⊢
        rw [List.count_cons_of_ne (fun e => hb e.symm)]
        exact ih

theorem bytesSplit_of_not_mem (sep : Byte) (s : Bytes) (h : sep ∉ s) :
    bytesSplit sep s = [s] := by
  induction s with
  | nil => simp [bytesSplit]
  | cons b s ih =>
    have hb : ¬ b = sep := fun e => h (e ▸ List.mem_cons_self _ _)
    have hs : sep ∉ s := fun e => h (List.mem_cons_of_mem _ e)
    simp [bytesSplit, hb, ih hs]

theorem bytesSplit_append_of_not_mem (sep : Byte) (c s : Bytes) (h : sep ∉ c) :
    bytesSplit sep (c ++ sep :: s) = c :: bytesSplit sep s := by
  induction c with
  | nil => simp [bytesSplit]
  | cons b c ih =>
    have hb : ¬ b = sep := fun e => h (e ▸ List.mem_cons_self _ _)
    have hc : sep ∉ c := fun e => h (List.mem_cons_of_mem _ e)
    simp [bytesSplit, hb, ih hc]

/-- The payload `c`, `:`, `s` is split into the two parts `c` and `s` exactly when
neither `c` nor `s` contains the byte `:`. -/
theorem bytesSplit_frame_iff (c s : Bytes) :
    bytesSplit 58 (c ++ bytesOf ":" ++ s) = [c, s] ↔ 58 ∉ c ∧ 58 ∉ s := by
  have hsep : bytesOf ":" = [58] := by decide
  rw [hsep, List.append_assoc, List.singleton_append]
  constructor
  · intro h
    have hlen := length_bytesSplit 58 (c ++ 58 :: s)
    rw [h] at hlen
    simp only [List.length_cons, List.length_nil, List.count_append, List.count_cons_self]
      at hlen
    have hc : List.count 58 c = 0 := by omega
    have hs : List.count 58 s = 0 := by omega
    exact ⟨List.count_eq_zero.mp hc, List.count_eq_zero.mp hs⟩
  · rintro ⟨hc, hs⟩
    rw [bytesSplit_append_of_not_mem 58 c s hc, bytesSplit_of_not_mem 58 s hs]

/-- C21, the code at the failing input: the random source delivers a nonce that starts
with the byte `:` (58), so the ciphertext that `EncryptMessage` returns contains it; the
payload that `SendSecureMessage` builds from it is split into more than two parts, and
`handleSecureMessage` of the receiver, to which the envelope is handed here, rejects it as
`invalid secure message format`. -/
theorem secure_envelope_with_colon_is_rejected :
    SecurityLayer.EncryptMessage stubLib ⟨[1, 2, 3]⟩
      [58, 21, 22, 23, 24, 25, 26, 27, 28, 29, 30, 31, 32] [104, 105] (some [7])
      = .ok [58, 21, 22, 23, 24, 25, 26, 27, 28, 29, 30, 31, 104, 105] ∧
    bytesSplit 58 ([58, 21, 22, 23, 24, 25, 26, 27, 28, 29, 30, 31, 104, 105] ++ bytesOf ":"
        ++ [1, 2, 3, 58, 21, 22, 23, 24, 25, 26, 27, 28, 29, 30, 31, 104, 105])
      = [[], [21, 22, 23, 24, 25, 26, 27, 28, 29, 30, 31, 104, 105], [1, 2, 3],
         [21, 22, 23, 24, 25, 26, 27, 28, 29, 30, 31, 104, 105]] ∧
    Node.SendSecureMessage stubLib ⟨fun _ => none, ⟨[1, 2, 3]⟩⟩
      [58, 21, 22, 23, 24, 25, 26, 27, 28, 29, 30, 31, 32]
      (fun envelope =>
        match Node.handleSecureMessage stubLib ⟨fun _ => some [1, 2, 3], ⟨[4, 5, 6]⟩⟩
          envelope with
        | .ok _ => .ok ()
        | .error err => .error err
        | .panic reason => .error reason)
      ⟨MessageTypeSigning, "party-5", "peerA", "peerB", [104, 105]⟩ (some [7])
      = .error "invalid secure message format" := by
  refine ⟨rfl, ?_, ?_⟩ <;> decide

namespace GoMap
variable {K V : Type} [DecidableEq K]

theorem delete_nil (k : K) : delete ([] : GoMap K V) k = [] := rfl

theorem delete_cons (m : GoMap K V) (k k1 : K) (v1 : V) :
    delete ((k1, v1) :: m) k = if k1 = k then delete m k else (k1, v1) :: delete m k := by
  by_cases h1 : k1 = k <;> simp [delete, List.filter_cons, h1]

theorem store_of_lookup (m : GoMap K V) (k : K) (v : V) (h : lookup m k = some v) :
    store m k v = m := by
  induction m with
  | nil => simp [lookup] at h
  | cons e m ih =>
    obtain ⟨k1, v1⟩ := e
    by_cases h1 : k1 = k
    · simp only [lookup, h1, if_true, Option.some.injEq] at h
      simp [store, h1, h]
    · simp only [lookup, h1, if_false] at h
      simp [store, h1, ih h]

theorem delete_of_lookup_none (m : GoMap K V) (k : K) (h : lookup m k = none) :
    delete m k = m := by
  induction m with
  | nil => rfl
  | cons e m ih =>
    obtain ⟨k1, v1⟩ := e
    by_cases h1 : k1 = k
    · simp [lookup, h1] at h
    · simp only [lookup, h1, if_false] at h
      rw [delete_cons, if_neg h1, ih h]

theorem delete_store_of_lookup_none (m : GoMap K V) (k : K) (v : V)
    (h : lookup m k = none) : delete (store m k v) k = m := by
  induction m with
  | nil => simp [store, delete_cons, delete_nil]
  | cons e m ih =>
    obtain ⟨k1, v1⟩ := e
    by_cases h1 : k1 = k
    · simp [lookup, h1] at h
    · simp only [lookup, h1, if_false] at h
      simp only [store, h1, if_false]
      rw [delete_cons, if_neg h1, ih h]

theorem delete_store_ne (m : GoMap K V) {k n : K} (v : V) (h : n ≠ k) :
    delete (store m n v) k = store (delete m k) n v := by
  induction m with
  | nil => simp [store, delete_cons, delete_nil, h]
  | cons e m ih =>
    obtain ⟨k1, v1⟩ := e
    by_cases h1 : k1 = n
    · subst h1
      simp only [store, if_true]
      rw [delete_cons, if_neg h, delete_cons, if_neg h]
      simp only [store, if_true]
    · simp only [store, h1, if_false]
      by_cases h2 : k1 = k
      · rw [delete_cons, if_pos h2, delete_cons, if_pos h2, ih]
      · rw [delete_cons, if_neg h2, delete_cons, if_neg h2, ih]
        simp only [store, h1, if_false]

theorem store_comm (m : GoMap K V) {k n : K} (v w : V) (hk : lookup m k ≠ none)
    (h : n ≠ k) : store (store m n v) k w = store (store m k w) n v := by
  induction m with
  | nil => simp [lookup] at hk
  | cons e m ih =>
    obtain ⟨k1, v1⟩ := e
    by_cases h1 : k1 = k
    · subst h1
      have hn : ¬ k1 = n := fun e => h e.symm
      simp [store, hn]
    · simp only [lookup, h1, if_false] at hk
      by_cases h2 : k1 = n
      · subst h2
        simp [store, h1]
      · simp [store, h1, h2, ih hk]

end GoMap

/-! ## Indexing a party and unindexing it again -/

theorem indexMember_of_indexed (partyID : String) (pp : GoMap PeerID (GoMap String Unit))
    (member : PeerID) (set : GoMap String Unit) (h : GoMap.lookup pp member = some set)
    (hx : GoMap.lookup set partyID = some ()) : indexMember partyID pp member = pp := by
  rw [indexMember_eq, h, Option.getD_some, GoMap.store_of_lookup set partyID () hx,
    GoMap.store_of_lookup pp member set h]

theorem unindexMember_of_settled (partyID : String) (pp : GoMap PeerID (GoMap String Unit))
    (member : PeerID) (h : Settled partyID pp member) :
    unindexMember partyID pp member = pp := by
  unfold unindexMember
  rcases h with h | ⟨set, h, hne, hx⟩
  · simp only [h, Option.getD_none, GoMap.len, List.length_nil, if_true]
    exact GoMap.delete_of_lookup_none pp member h
  · simp only [h, GoMap.delete_of_lookup_none set partyID hx,
      GoMap.store_of_lookup pp member set h, Option.getD_some, GoMap.len]
    have : ¬ set.length = 0 := fun e => hne (List.length_eq_zero.mp e)
    simp only [this, if_false]

theorem unindexMember_indexMember (partyID : String) (pp : GoMap PeerID (GoMap String Unit))
    (member : PeerID) (h : Settled partyID pp member) :
    unindexMember partyID (indexMember partyID pp member) member = pp := by
  rw [indexMember_eq]
  unfold unindexMember
  simp only [GoMap.lookup_store_self, GoMap.store_store, Option.getD_some]
  rcases h with h | ⟨set, h, hne, hx⟩
  · have hd : GoMap.delete (GoMap.store ((GoMap.lookup pp member).getD []) partyID ()) partyID
        = [] := by
      rw [h, Option.getD_none]
      exact GoMap.delete_store_of_lookup_none [] partyID () rfl
    simp only [hd, GoMap.len, List.length_nil, if_true]
    exact GoMap.delete_store_of_lookup_none pp member [] h
  · have hd : GoMap.delete (GoMap.store ((GoMap.lookup pp member).getD []) partyID ()) partyID
        = set := by
      rw [h, Option.getD_some]
      exact GoMap.delete_store_of_lookup_none set partyID () hx
    have : ¬ set.length = 0 := fun e => hne (List.length_eq_zero.mp e)
    simp only [hd, GoMap.len, this, if_false]
    exact GoMap.store_of_lookup pp member set h

theorem unindexMember_indexMember_comm (partyID : String)
    (pp : GoMap PeerID (GoMap String Unit)) (m n : PeerID) (h : m ≠ n) :
    unindexMember partyID (indexMember partyID pp n) m =
      indexMember partyID (unindexMember partyID pp m) n := by
  have hnm : n ≠ m := fun e => h e.symm
  have hl : GoMap.lookup (indexMember partyID pp n) m = GoMap.lookup pp m := by
    rw [lookup_indexMember, if_neg h]
  have hn : GoMap.lookup (unindexMember partyID pp m) n = GoMap.lookup pp n :=
    lookup_unindexMember partyID pp m n hnm
  rw [indexMember_eq partyID (unindexMember partyID pp m) n, hn]
  unfold unindexMember
  rw [hl]
  rw [indexMember_eq]
  cases hm : GoMap.lookup pp m with
  | none =>
    simp only [GoMap.lookup_store_ne _ _ h, hm, Option.getD_none, GoMap.len, List.length_nil,
      if_true]
    exact GoMap.delete_store_ne pp _ hnm
  | some set =>
    simp only [GoMap.lookup_store_self, Option.getD_some]
    have hk : GoMap.lookup pp m ≠ none := by rw [hm]; exact fun e => Option.noConfusion e
    rw [GoMap.store_comm pp _ (GoMap.delete set partyID) hk hnm]
    by_cases hlen : GoMap.len (GoMap.delete set partyID) = 0
    · simp only [hlen, if_true]
      exact GoMap.delete_store_ne _ _ hnm
    · simp only [hlen, if_false]

theorem settled_of_lookup_eq (partyID : String) (pp pp' : GoMap PeerID (GoMap String Unit))
    (member : PeerID) (h : GoMap.lookup pp' member = GoMap.lookup pp member)
    (hs : Settled partyID pp member) : Settled partyID pp' member := by
  unfold Settled at hs ⊢
  rw [h]
  exact hs

theorem lookup_foldl_indexMember_of_not_mem (partyID : String) (members : List PeerID)
    (pp : GoMap PeerID (GoMap String Unit)) (peer : PeerID) (h : peer ∉ members) :
    GoMap.lookup (members.foldl (indexMember partyID) pp) peer = GoMap.lookup pp peer := by
  induction members generalizing pp with
  | nil => rfl
  | cons m ms ih =>
    have hm : peer ≠ m := fun e => h (e ▸ List.mem_cons_self _ _)
    have hms : peer ∉ ms := fun e => h (List.mem_cons_of_mem _ e)
    rw [List.foldl_cons, ih _ hms, lookup_indexMember, if_neg hm]

theorem foldl_indexMember_filter (partyID : String) (members : List PeerID)
    (pp : GoMap PeerID (GoMap String Unit)) (m : PeerID) (set : GoMap String Unit)
    (h : GoMap.lookup pp m = some set) (hx : GoMap.lookup set partyID = some ()) :
    members.foldl (indexMember partyID) pp =
      (members.filter (fun n => decide (n ≠ m))).foldl (indexMember partyID) pp := by
  induction members generalizing pp with
  | nil => rfl
  | cons n ns ih =>
    by_cases hn : n = m
    · subst hn
      rw [List.foldl_cons, indexMember_of_indexed partyID pp n set h hx, ih pp h]
      simp [List.filter_cons]
    · have hl : GoMap.lookup (indexMember partyID pp n) m = some set := by
        rw [lookup_indexMember, if_neg (fun e => hn e.symm)]
        exact h
      rw [List.foldl_cons, ih _ hl]
      simp [List.filter_cons, hn]

theorem foldl_unindexMember_filter (partyID : String) (members : List PeerID)
    (pp : GoMap PeerID (GoMap String Unit)) (m : PeerID) (h : Settled partyID pp m) :
    members.foldl (unindexMember partyID) pp =
      (members.filter (fun n => decide (n ≠ m))).foldl (unindexMember partyID) pp := by
  induction members generalizing pp with
  | nil => rfl
  | cons n ns ih =>
    by_cases hn : n = m
    · subst hn
      rw [List.foldl_cons, unindexMember_of_settled partyID pp n h, ih pp h]
      simp [List.filter_cons]
    · have hs : Settled partyID (unindexMember partyID pp n) m :=
        settled_of_lookup_eq partyID pp _ m
          (lookup_unindexMember partyID pp n m (fun e => hn e.symm)) h
      rw [List.foldl_cons, ih _ hs]
      simp [List.filter_cons, hn]

theorem unindexMember_foldl_indexMember (partyID : String) (members : List PeerID)
    (pp : GoMap PeerID (GoMap String Unit)) (m : PeerID) (h : m ∉ members) :
    unindexMember partyID (members.foldl (indexMember partyID) pp) m =
      members.foldl (indexMember partyID) (unindexMember partyID pp m) := by
  induction members generalizing pp with
  | nil => rfl
  | cons n ns ih =>
    have hn : m ≠ n := fun e => h (e ▸ List.mem_cons_self _ _)
    have hns : m ∉ ns := fun e => h (List.mem_cons_of_mem _ e)
    rw [List.foldl_cons, ih _ hns, unindexMember_indexMember_comm partyID pp m n hn,
      List.foldl_cons]

/-- Unindexing a party for the members it was just indexed for gives the reverse index
back, entry by entry, when the ID was in no set and no set was empty. -/
theorem foldl_unindexMember_foldl_indexMember (partyID : String) (members : List PeerID)
    (pp : GoMap PeerID (GoMap String Unit)) (h : ∀ m, Settled partyID pp m) :
    members.foldl (unindexMember partyID) (members.foldl (indexMember partyID) pp) = pp := by
  generalize hn : members.length = n
  induction n using Nat.strong_induction_on generalizing members with
  | _ n ih =>
    cases members with
    | nil => rfl
    | cons m ms =>
      have hnot : m ∉ ms.filter (fun n => decide (n ≠ m)) := by
        simp [List.mem_filter]
      have hidx : ∃ set, GoMap.lookup (indexMember partyID pp m) m = some set ∧
          GoMap.lookup set partyID = some () := by
        rw [lookup_indexMember, if_pos rfl]
        exact ⟨_, rfl, GoMap.lookup_store_self _ _ _⟩
      obtain ⟨set, hset, hx⟩ := hidx
      have hsettled : Settled partyID
          ((ms.filter (fun n => decide (n ≠ m))).foldl (indexMember partyID) pp) m :=
        settled_of_lookup_eq partyID pp _ m
          (lookup_foldl_indexMember_of_not_mem partyID _ pp m hnot) (h m)
      rw [List.foldl_cons, List.foldl_cons,
        foldl_indexMember_filter partyID ms _ m set hset hx,
        unindexMember_foldl_indexMember partyID _ _ m hnot,
        unindexMember_indexMember partyID pp m (h m),
        foldl_unindexMember_filter partyID ms _ m hsettled]
      have hlen : (ms.filter (fun n => decide (n ≠ m))).length < n := by
        have := List.length_filter_le (fun n => decide (n ≠ m)) ms
        simp only [List.length_cons] at hn
        omega
      exact ih _ hlen _ rfl

/-! ## Creating a party and completing it -/

theorem UpdatePartyStatus_Completed_of_held (w : World) (partyID : String) (ptr : Nat)
    (p : Party) (hl : GoMap.lookup w.pm.parties partyID = some ptr)
    (hd : w.deref ptr = some p) :
    (UpdatePartyStatus w partyID PartyStatusCompleted).1 = .ok () ∧
    (UpdatePartyStatus w partyID PartyStatusCompleted).2.pm =
      { parties := GoMap.delete w.pm.parties partyID,
        peerParties := p.Members.foldl (unindexMember partyID) w.pm.peerParties } := by
  have hl1 : GoMap.lookup (w.setStatus ptr PartyStatusCompleted).pm.parties partyID
      = some ptr := by
    rw [setStatus_pm]; exact hl
  have hd1 : (w.setStatus ptr PartyStatusCompleted).deref ptr
      = some { p with Status := PartyStatusCompleted } := by
    rw [deref_setStatus, hd]; simp
  have hu : UpdatePartyStatus w partyID PartyStatusCompleted =
      (.ok (), cleanupParty (w.setStatus ptr PartyStatusCompleted) partyID) := by
    simp only [UpdatePartyStatus, hl, true_or, if_true]
  rw [hu, cleanupParty_of_held _ _ _ _ hl1 hd1]
  exact ⟨rfl, by simp only [setStatus_pm]⟩

/-- C22: in a state whose reverse index has no empty set and in which the ID that
`CreateParty` allocates is unused (it is not in the primary table and in no peer's set), a
successful `CreateParty` followed by `UpdatePartyStatus` of that ID with `Completed`
leaves the primary table and the reverse index equal to what they were before the
`CreateParty`, entry by entry. -/
theorem create_then_complete_restores (w : World) (now : Int) (initiator : PeerID)
    (members : List PeerID) (threshold : Int) (operation : TSSOperation) (party : Nat)
    (hempty : ∀ peer set, GoMap.lookup w.pm.peerParties peer = some set → set ≠ [])
    (htable : GoMap.lookup w.pm.parties (generatePartyID now) = none)
    (hindex : ∀ peer, generatePartyID now ∉ GetPeerParties w peer)
    (hok : (CreateParty w now initiator members threshold operation).1 = .ok party) :
    ((CreateParty w now initiator members threshold operation).2.deref party).map Party.ID
      = some (generatePartyID now) ∧
    (UpdatePartyStatus (CreateParty w now initiator members threshold operation).2
      (generatePartyID now) PartyStatusCompleted).1 = .ok () ∧
    (UpdatePartyStatus (CreateParty w now initiator members threshold operation).2
      (generatePartyID now) PartyStatusCompleted).2.pm.parties = w.pm.parties ∧
    (UpdatePartyStatus (CreateParty w now initiator members threshold operation).2
      (generatePartyID now) PartyStatusCompleted).2.pm.peerParties = w.pm.peerParties := by
  by_cases hv : 3 ≤ members.length ∧ members.length ≤ 10 ∧ 2 ≤ threshold ∧
      threshold ≤ (members.length : Int)
  · have hsettled : ∀ m, Settled (generatePartyID now) w.pm.peerParties m := by
      intro m
      cases hl : GoMap.lookup w.pm.peerParties m with
      | none => exact Or.inl hl
      | some set =>
        refine Or.inr ⟨set, hl, hempty m set hl, ?_⟩
        have hm := hindex m
        simp only [GetPeerParties, hl, Option.getD_some, GoMap.mem_keys_iff, ne_eq,
          not_not] at hm
        exact hm
    rw [CreateParty_of_valid w now initiator members threshold operation hv] at hok ⊢
    cases hok
    obtain ⟨h1, h2⟩ := UpdatePartyStatus_Completed_of_held
      { heap := w.heap ++ [{ ID := generatePartyID now, Members := members,
                             Threshold := threshold, Status := PartyStatusForming,
                             Operation := operation }],
        pm := { parties := GoMap.store w.pm.parties (generatePartyID now) w.heap.length,
                peerParties :=
                  members.foldl (indexMember (generatePartyID now)) w.pm.peerParties },
        forming := w.forming ++ [w.heap.length] }
      (generatePartyID now) w.heap.length
      { ID := generatePartyID now, Members := members, Threshold := threshold,
        Status := PartyStatusForming, Operation := operation }
      (GoMap.lookup_store_self w.pm.parties (generatePartyID now) w.heap.length)
      (List.getElem?_concat_length w.heap _)
    refine ⟨?_, h1, ?_, ?_⟩
    · simp [World.deref]
    · rw [h2]
      exact GoMap.delete_store_of_lookup_none _ _ _ htable
    · rw [h2]
      exact foldl_unindexMember_foldl_indexMember _ members _ hsettled
  · obtain ⟨e, he⟩ := CreateParty_of_invalid w now initiator members threshold operation hv
    rw [he] at hok
    cases hok

/-- A party of C22 with a repeated member, created beside two existing parties and then
completed: the manager is as it was. -/
theorem create_then_complete_restores_witness :
    (UpdatePartyStatus (CreateParty
        (run World.init [.create 5 "P0" ["P1", "P2", "P3"] 2 TSSOperationKeyGen,
          .create 6 "P0" ["P3", "P4", "P5"] 3 TSSOperationSigning])
        7 "P0" ["P9", "P3", "P9", "P1", "P8"] 2 TSSOperationKeyGen).2
      (generatePartyID 7) PartyStatusCompleted).2.pm.peerParties
    = (run World.init [.create 5 "P0" ["P1", "P2", "P3"] 2 TSSOperationKeyGen,
          .create 6 "P0" ["P3", "P4", "P5"] 3 TSSOperationSigning]).pm.peerParties :=
  (create_then_complete_restores
    (run World.init [.create 5 "P0" ["P1", "P2", "P3"] 2 TSSOperationKeyGen,
      .create 6 "P0" ["P3", "P4", "P5"] 3 TSSOperationSigning])
    7 "P0" ["P9", "P3", "P9", "P1", "P8"] 2 TSSOperationKeyGen 2
    (fun peer set h =>
      noEmptySets_run World.init _ (by intro e he; cases he) (peer, set)
        (GoMap.mem_of_lookup _ _ _ h))
    (by decide)
    (fun peer hmem => by
      obtain ⟨party, p, hl, _⟩ := (reverse_index_consistent_of_fresh_IDs
        [.create 5 "P0" ["P1", "P2", "P3"] 2 TSSOperationKeyGen,
         .create 6 "P0" ["P3", "P4", "P5"] 3 TSSOperationSigning]
        ⟨fun _ => by decide, fun _ => by decide, trivial⟩ peer (generatePartyID 7)).1 hmem
      have hnone : GoMap.lookup (run World.init
          [.create 5 "P0" ["P1", "P2", "P3"] 2 TSSOperationKeyGen,
           .create 6 "P0" ["P3", "P4", "P5"] 3 TSSOperationSigning]).pm.parties
          (generatePartyID 7) = none := by decide
      rw [hnone] at hl
      cases hl)
    rfl).2.2.2

end Tss
